import Mathlib

/-!
Shallow embedding of the CFG-builder program (`app.py`).

The program builds a control-flow graph from simplified source text using a
`networkx.DiGraph` (a simple directed graph: at most one edge per ordered
pair of node ids; re-adding an edge overwrites its attributes), then derives
complexity metrics.  Python strings are embedded as `List Char`; the shared
mutable builder state (`graph`, `node_counter`, `lines`, `cursor`, `mode`)
becomes an explicit `Builder` record threaded through each call; the
recursive `parse_block` (a `while` loop plus recursive calls, all advancing
a shared cursor) is embedded as a fuel-indexed structurally recursive
function, with the fuel chosen large enough at the unique top-level call
site in `parse`.
-/

abbrev Line := List Char

/-- The opening brace character (written via its code point). -/
def braceOpen : Char := Char.ofNat 123

/-- The closing brace character (written via its code point). -/
def braceClose : Char := Char.ofNat 125

/-- The double-quote character. -/
def dquote : Char := Char.ofNat 34

/-- The single-quote character. -/
def squote : Char := Char.ofNat 39

/-- Python `str.startswith`: prefix test on the character list. -/
def startswith (s p : Line) : Bool := p.isPrefixOf s

/-- The whitespace characters removed by Python `str.strip()`. -/
def pySpace (c : Char) : Bool :=
  c == ' ' || c == '\t' || c == '\n' || c == '\r' || c == Char.ofNat 11 || c == Char.ofNat 12

/-- Python `str.strip()`. -/
def pyStrip (s : Line) : Line :=
  ((s.dropWhile pySpace).reverse.dropWhile pySpace).reverse

/-- Python `str.split('\n')` on a character list: every newline separates,
empty pieces are kept. -/
def splitOnNl : Line → List Line
  | [] => [[]]
  | c :: cs =>
    match splitOnNl cs with
    | [] => [[c]]
    | h :: t => if c = '\n' then [] :: h :: t else (c :: h) :: t

/-- Drop the rest of a line from the first occurrence of `marker` on;
models one `re.sub(marker + '.*', '', line)` step (`.` does not match a
newline, so the regex works line-by-line). -/
def stripLineTail (marker : Line) : Line → Line
  | [] => []
  | c :: cs => if marker.isPrefixOf (c :: cs) then [] else c :: stripLineTail marker cs

/-- `re.sub(marker + '.*', '', text)`: remove, on every line, everything from
the first occurrence of `marker` to the end of that line. -/
def stripComments (marker : Line) (t : Line) : Line :=
  List.intercalate ['\n'] ((splitOnNl t).map (stripLineTail marker))

/-- Python `str.replace(pat, rep)` (leftmost, non-overlapping, the
replacement is not rescanned), with explicit fuel for structural recursion;
`pat` is never empty at the call sites. -/
def replaceFuel (pat rep : Line) : Nat → Line → Line
  | _, [] => []
  | 0, s => s
  | Nat.succ f, c :: cs =>
    if pat.isPrefixOf (c :: cs) then rep ++ replaceFuel pat rep f (cs.drop (pat.length - 1))
    else c :: replaceFuel pat rep f cs

/-- Python `str.replace(pat, rep)`. -/
def pyReplace (pat rep s : Line) : Line := replaceFuel pat rep s.length s

/-- Attributes stored for a node by `new_node` / `add_node`. -/
structure NodeData where
  label : Line
  shape : Line
  style : Line
  fillcolor : Line
deriving DecidableEq, Repr

/-- A `networkx.DiGraph`: nodes with attributes plus directed edges with an
optional label attribute.  At most one edge is stored per ordered pair; both
`add_node` and `add_edge` overwrite attributes when the key already exists. -/
structure Graph where
  nodes : List (Nat × NodeData)
  edges : List (Nat × Nat × Option Line)
deriving DecidableEq, Repr

def Graph.empty : Graph := ⟨[], []⟩

/-- `networkx.DiGraph.add_node` with attributes: insert, or overwrite the
attributes if the id is already present. -/
def Graph.add_node (g : Graph) (i : Nat) (d : NodeData) : Graph :=
  if g.nodes.any (fun p => p.1 == i) then
    { g with nodes := g.nodes.map (fun p => if p.1 == i then (i, d) else p) }
  else
    { g with nodes := g.nodes ++ [(i, d)] }

/-- `networkx.DiGraph.add_edge` with a `label` attribute: a simple digraph
stores at most one edge per ordered pair, so adding an existing pair
overwrites that edge's label instead of adding a parallel edge.  (In the
program every `connect` is issued between node ids already in the graph, so
the implicit endpoint creation of `add_edge` never fires and is not
modelled.) -/
def Graph.add_edge (g : Graph) (u v : Nat) (l : Option Line) : Graph :=
  if g.edges.any (fun e => e.1 == u && e.2.1 == v) then
    { g with edges := g.edges.map (fun e => if e.1 == u && e.2.1 == v then (u, v, l) else e) }
  else
    { g with edges := g.edges ++ [(u, v, l)] }

def Graph.out_degree (g : Graph) (n : Nat) : Nat :=
  (g.edges.filter (fun e => e.1 == n)).length

def Graph.in_degree (g : Graph) (n : Nat) : Nat :=
  (g.edges.filter (fun e => e.2.1 == n)).length

/-- The two syntax modes selected by `parse`. -/
inductive Mode where
  | c_style
  | python_style
deriving DecidableEq, Repr

/-- The mutable state of a `UniversalCFGBuilder` instance. -/
structure Builder where
  graph : Graph
  node_counter : Nat
  lines : List Line
  cursor : Nat
  mode : Mode
deriving DecidableEq, Repr

/-- `UniversalCFGBuilder.__init__`. -/
def Builder.init : Builder :=
  { graph := Graph.empty, node_counter := 0, lines := [], cursor := 0, mode := Mode.c_style }

/-- The label cleaning done by `new_node`: strip, replace `"` by `'`, and
truncate labels longer than 40 characters to a 20-character prefix, an
ellipsis, and a 15-character suffix. -/
def clean_label (label : Line) : Line :=
  let c := pyReplace [dquote] [squote] (pyStrip label)
  if 40 < c.length then c.take 20 ++ "...".data ++ c.drop (c.length - 15) else c

/-- `UniversalCFGBuilder.new_node`: increment the counter, register the node
(ids `N1`, `N2`, ... are embedded as the counter value itself), return its id.
The `style` attribute is always `'filled'` at every call site. -/
def Builder.new_node (b : Builder) (label shape fillcolor : Line) : Nat × Builder :=
  let id := b.node_counter + 1
  (id, { b with
          node_counter := id,
          graph := b.graph.add_node id ⟨clean_label label, shape, "filled".data, fillcolor⟩ })

/-- `UniversalCFGBuilder.connect`: add an edge.  The guard `if u and v` of
the source is vacuous for actual node ids (nonempty strings are truthy); its
only potentially-`None` argument, `last_decision`, is matched on explicitly
at its single call site (`merge_exits`). -/
def Builder.connect (b : Builder) (u v : Nat) (l : Option Line) : Builder :=
  { b with graph := b.graph.add_edge u v l }

/-- The `flush_buffer` closure of `parse_block`: coalesce the buffered lines
into one box node connected from the current predecessor; the new node
becomes the predecessor. -/
def Builder.flush_buffer (b : Builder) (current : Nat) (buf : List Line) : Nat × Builder :=
  match buf with
  | [] => (current, b)
  | _ =>
    let p := b.new_node (List.intercalate ['\n'] buf) "box".data "white".data
    (p.1, p.2.connect current p.1 none)

/-- The merge step closing a conditional chain (`# --- C. Merge`): create one
`Merge` point node, connect every recorded exit point to it unlabeled, and,
when the chain was not closed by an `else` (`last_decision` still set),
connect the last open decision to it labeled `False`. -/
def Builder.merge_exits (b : Builder) (exit_points : List Nat) (last_decision : Option Nat) :
    Nat × Builder :=
  let p := b.new_node "Merge".data "point".data "white".data
  let b2 := exit_points.foldl (fun acc q => acc.connect q p.1 none) p.2
  match last_decision with
  | some d => (p.1, b2.connect d p.1 (some "False".data))
  | none => (p.1, b2)

mutual

/-- The body of `UniversalCFGBuilder.parse_block`: its `while` loop, carrying
the current predecessor and the statement buffer, embedded as fuel-indexed
recursion (the fuel only bounds the recursion depth; `parse` supplies enough
at the unique top-level call).  Running out of fuel behaves like end of
input: flush and return. -/
def Builder.parse_block_loop : Nat → Builder → Nat → List Line → Nat × Builder
  | 0, b, current, buf => b.flush_buffer current buf
  | Nat.succ fuel, b, current, buf =>
    if h : b.cursor < b.lines.length then
      let line := b.lines[b.cursor]
      if startswith line "elif".data || startswith line "else".data then
        b.flush_buffer current buf
      else if b.mode == Mode.c_style && line == "\x7d".data then
        let p := b.flush_buffer current buf
        (p.1, { p.2 with cursor := p.2.cursor + 1 })
      else if b.mode == Mode.c_style && line == "\x7b".data then
        Builder.parse_block_loop fuel { b with cursor := b.cursor + 1 } current buf
      else if startswith line "for".data || startswith line "while".data then
        let p := b.flush_buffer current buf
        let q := p.2.new_node line "diamond".data "#FFF9C4".data
        let b3 := { q.2.connect p.1 q.1 none with cursor := b.cursor + 1 }
        let r := Builder.parse_block_loop fuel b3 q.1 []
        let b5 := r.2.connect r.1 q.1 (some "Loop".data)
        let s := b5.new_node "Exit Loop".data "point".data "white".data
        let b7 := s.2.connect q.1 s.1 (some "False".data)
        Builder.parse_block_loop fuel b7 s.1 []
      else if startswith line "if".data then
        let p := b.flush_buffer current buf
        let q := p.2.new_node line "diamond".data "#FFE0B2".data
        let b3 := { q.2.connect p.1 q.1 none with cursor := b.cursor + 1 }
        let r := Builder.parse_block_loop fuel b3 q.1 []
        let c := Builder.parse_chain fuel r.2 q.1 [r.1]
        let m := c.2.2.merge_exits c.2.1 c.1
        Builder.parse_block_loop fuel m.2 m.1 []
      else if startswith line "return".data then
        let p := b.flush_buffer current buf
        let q := p.2.new_node line "box".data "#FFCDD2".data
        let b3 := q.2.connect p.1 q.1 none
        (q.1, { b3 with cursor := b3.cursor + 1 })
      else
        Builder.parse_block_loop fuel { b with cursor := b.cursor + 1 } current (buf ++ [line])
    else
      b.flush_buffer current buf

/-- The `# --- B. Handle ELIF / ELSE` loop of `parse_block`: extend the
conditional chain while the next un-consumed line starts an `elif` or `else`
branch.  Returns the remaining open decision (`none` once an `else` closed
the chain), the recorded exit points, and the state. -/
def Builder.parse_chain : Nat → Builder → Nat → List Nat → Option Nat × List Nat × Builder
  | 0, b, last_decision, exit_points => (some last_decision, exit_points, b)
  | Nat.succ fuel, b, last_decision, exit_points =>
    if h : b.cursor < b.lines.length then
      let next_line := b.lines[b.cursor]
      if startswith next_line "elif".data || startswith next_line "else if".data then
        let b1 := { b with cursor := b.cursor + 1 }
        let q := b1.new_node next_line "diamond".data "#FFE0B2".data
        let b3 := q.2.connect last_decision q.1 (some "False".data)
        let r := Builder.parse_block_loop fuel b3 q.1 []
        Builder.parse_chain fuel r.2 q.1 (exit_points ++ [r.1])
      else if startswith next_line "else".data then
        let b1 := { b with cursor := b.cursor + 1 }
        let q := b1.new_node "Else".data "point".data "white".data
        let b3 := q.2.connect last_decision q.1 (some "False".data)
        let r := Builder.parse_block_loop fuel b3 q.1 []
        (none, exit_points ++ [r.1], r.2)
      else
        (some last_decision, exit_points, b)
    else
      (some last_decision, exit_points, b)

end

/-- The normalization step at the head of `parse`: mode detection (both an
opening and a closing brace present selects c-style), comment stripping,
line-break insertion around braces and semicolons plus the textual
`else if` → `elif` rewrite (c-style only), then split, strip, drop empties. -/
def normalizeInput (code_text : String) : Mode × List Line :=
  let t := code_text.data
  let r :=
    if t.contains braceOpen && t.contains braceClose then
      (Mode.c_style,
        pyReplace "else if".data "elif".data
          (pyReplace ";".data ";\n".data
            (pyReplace "\x7d".data "\n\x7d\n".data
              (pyReplace "\x7b".data "\n\x7b\n".data
                (stripComments "//".data t)))))
    else
      (Mode.python_style, stripComments "#".data t)
  (r.1, ((splitOnNl r.2).map pyStrip).filter (fun l => !l.isEmpty))

/-- `UniversalCFGBuilder.parse`: normalize and store the line sequence, reset
the cursor, create START, run the block parser with START as entry, create
END and connect the block's exit to it.  Note that `parse` does not reset
`graph` or `node_counter` — only `mode`, `lines` and `cursor` are
reassigned.  Returns the graph together with the post-call instance state. -/
def Builder.parse (b : Builder) (code_text : String) : Graph × Builder :=
  let n := normalizeInput code_text
  let b1 := { b with mode := n.1, lines := n.2, cursor := 0 }
  let p := b1.new_node "START".data "oval".data "#C8E6C9".data
  let r := Builder.parse_block_loop (p.2.lines.length + 1) p.2 p.1 []
  let q := r.2.new_node "END".data "oval".data "#FFCDD2".data
  let b5 := q.2.connect r.1 q.1 none
  (b5.graph, b5)

/-- The metrics record returned by `calculate_metrics` on a nonempty graph. -/
structure Metrics where
  Nodes : Nat
  Edges : Nat
  Complexity : Int
  Predicates : Nat
  Regions : Int
deriving DecidableEq, Repr

/-- `calculate_metrics`: `none` models the empty dict returned for an empty
graph (`if not G`), otherwise the five metrics. -/
def calculate_metrics (g : Graph) : Option Metrics :=
  if g.nodes.isEmpty then none
  else
    let n := g.nodes.length
    let e := g.edges.length
    let p := (g.nodes.filter (fun nd => 1 < g.out_degree nd.1)).length
    let cc : Int := (e : Int) - (n : Int) + 2
    some ⟨n, e, cc, p, cc⟩

/-- A line that starts one of the control constructs recognized by
`parse_block` (keyword prefix match); any other line is treated as opaque
text and buffered. -/
def is_control (l : Line) : Bool :=
  startswith l "elif".data || startswith l "else".data || startswith l "for".data ||
  startswith l "while".data || startswith l "if".data || startswith l "return".data

/-- The node ids of a graph. -/
def Graph.ids (g : Graph) : List Nat := g.nodes.map (fun p => p.1)

/-- The (source, target) pairs of a graph's edges. -/
def Graph.pairs (g : Graph) : List (Nat × Nat) := g.edges.map (fun e => (e.1, e.2.1))

/-- `v` has at least one incoming edge. -/
def Graph.hasIn (g : Graph) (v : Nat) : Prop := ∃ u, (u, v) ∈ g.pairs

/-- One-step edge relation of a graph. -/
def Graph.Step (g : Graph) (u v : Nat) : Prop := (u, v) ∈ g.pairs

/-- Directed reachability along edges. -/
def Graph.Reach (g : Graph) (u v : Nat) : Prop := Relation.ReflTransGen g.Step u v

/-- The builder-state extension invariant threaded through the block parser:
from state `s` to state `s'`, with `n` a lower bound below which no new node
id appears and into which no new edge points, and `root` an anchor from
which every new node is reachable.  Nodes and edge pairs are never removed;
every new node lies above `n`, is reachable from `root`, and has an
incoming edge; every new edge pair targets a node above `n`; node entries
with id at most the counter are preserved verbatim along with the counter
bound. -/
structure BExt (n root : Nat) (s sp : Builder) : Prop where
  lines_eq : sp.lines = s.lines
  mode_eq : sp.mode = s.mode
  counter_le : s.node_counter ≤ sp.node_counter
  ids_sub : ∀ i ∈ s.graph.ids, i ∈ sp.graph.ids
  pairs_sub : ∀ p ∈ s.graph.pairs, p ∈ sp.graph.pairs
  new_ids : ∀ i ∈ sp.graph.ids, i ∈ s.graph.ids ∨
    (n < i ∧ sp.graph.Reach root i ∧ sp.graph.hasIn i)
  new_pairs : ∀ p ∈ sp.graph.pairs, p ∈ s.graph.pairs ∨ n < p.2
  wf_pres : (∀ i ∈ s.graph.ids, i ≤ s.node_counter) →
    (∀ i ∈ sp.graph.ids, i ≤ sp.node_counter) ∧
    (∀ x ∈ s.graph.nodes, x ∈ sp.graph.nodes)

/-! ## Basic facts about `add_edge` (simple-digraph edge semantics) -/

/-- After `add_edge u v l`, the edge `(u, v, l)` is stored. -/
theorem add_edge_mem (g : Graph) (u v : Nat) (l : Option Line) :
    (u, v, l) ∈ (g.add_edge u v l).edges := by
  unfold Graph.add_edge
  split
  · next hany =>
    rcases List.any_eq_true.mp hany with ⟨e, he, hm⟩
    simp only
    exact List.mem_map.mpr ⟨e, he, by simp [hm]⟩
  · simp

/-- `add_edge` on an already-present ordered pair does not change the number
of stored edges. -/
theorem add_edge_length_of_mem (g : Graph) (u v : Nat) (l l' : Option Line)
    (h : (u, v, l) ∈ g.edges) :
    (g.add_edge u v l').edges.length = g.edges.length := by
  unfold Graph.add_edge
  have hany : g.edges.any (fun e => e.1 == u && e.2.1 == v) = true :=
    List.any_eq_true.mpr ⟨(u, v, l), h, by simp⟩
  simp [hany]

/-- Any edge stored after `add_edge u v l'` is either the freshly written
`(u, v, l')` or an untouched edge of the original graph on a different
ordered pair. -/
theorem mem_add_edge_elim (g : Graph) (u v : Nat) (l' : Option Line)
    (x : Nat × Nat × Option Line) (h : x ∈ (g.add_edge u v l').edges) :
    x = (u, v, l') ∨ (x ∈ g.edges ∧ ¬(x.1 = u ∧ x.2.1 = v)) := by
  unfold Graph.add_edge at h
  split at h
  · next hany =>
    rcases List.mem_map.mp h with ⟨e, he, hfe⟩
    by_cases hc : (e.1 == u && e.2.1 == v) = true
    · rw [if_pos hc] at hfe
      exact Or.inl hfe.symm
    · rw [if_neg hc] at hfe
      subst hfe
      refine Or.inr ⟨he, fun hx => hc ?_⟩
      simp [hx.1, hx.2]
  · next hany =>
    rcases List.mem_append.mp h with h1 | h1
    · refine Or.inr ⟨h1, fun hx => ?_⟩
      exact hany (List.any_eq_true.mpr ⟨x, h1, by simp [hx.1, hx.2]⟩)
    · exact Or.inl (by simpa using h1)

/-- `add_edge` on an already-present ordered pair replaces the old label:
the previously stored edge is gone when the labels differ. -/
theorem add_edge_overwrites (g : Graph) (u v : Nat) (l l' : Option Line)
    (hne : l ≠ l') :
    (u, v, l) ∉ ((g.add_edge u v l).add_edge u v l').edges := by
  intro hmem
  rcases mem_add_edge_elim _ u v l' _ hmem with h | ⟨_, hnp⟩
  · exact hne (by injection h with _ h2; injection h2)
  · exact hnp ⟨rfl, rfl⟩

/-! ## Claim theorems: C1, C2, C8, C10 -/

/-- C1 counterexample.  The claim asserts that two `connect` operations on
the same ordered pair during one parse leave two edges in the finished
graph.  The graph is a `networkx.DiGraph`, so the second `add_edge`
overwrites the first: re-adding pair `(2, 3)` leaves a single edge carrying
the second label, and on input `"if x"` (an `if` with an empty branch and no
`else`, whose branch exit and last open decision are both node 2 and whose
merge node is 3) the two `connect` calls issued for `(2, 3)` leave one edge,
the total edge list has three entries, and the metrics count `Edges = 3`,
not four. -/
theorem claim_C1_counterexample :
    ((Graph.empty.add_edge 2 3 none).add_edge 2 3 (some "False".data)).edges =
      [(2, 3, some "False".data)] ∧
    (2, 3, (none : Option Line)) ∉
      ((Graph.empty.add_edge 2 3 none).add_edge 2 3 (some "False".data)).edges ∧
    (Builder.init.parse "if x").1.edges =
      [(1, 2, none), (2, 3, some "False".data), (3, 4, none)] ∧
    ((Builder.init.parse "if x").1.edges.filter (fun e => e.1 == 2 && e.2.1 == 3)).length = 1 ∧
    calculate_metrics (Builder.init.parse "if x").1 = some ⟨4, 3, 1, 0, 1⟩ := by
  refine ⟨by decide, by decide, by decide, by decide, by decide⟩

/-- C1 amended: the graph holds at most one edge per ordered pair; a second
`connect` for an already-connected pair overwrites that edge's label instead
of adding a parallel edge (so an edge can be mutated after creation), and
the metric edge count counts the pair once.  Concretely, on `"if x"` the two
`connect` calls issued for the pair `(2, 3)` leave exactly one edge, carrying
the second call's label `False`, and the metrics report `Edges = 3`. -/
theorem claim_C1_amended :
    (∀ (g : Graph) (u v : Nat) (l : Option Line), (u, v, l) ∈ (g.add_edge u v l).edges) ∧
    (∀ (g : Graph) (u v : Nat) (l l' : Option Line),
      ((g.add_edge u v l).add_edge u v l').edges.length = (g.add_edge u v l).edges.length) ∧
    (∀ (g : Graph) (u v : Nat) (l l' : Option Line), l ≠ l' →
      (u, v, l) ∉ ((g.add_edge u v l).add_edge u v l').edges ∧
      (u, v, l') ∈ ((g.add_edge u v l).add_edge u v l').edges) ∧
    ((Builder.init.parse "if x").1.edges.filter (fun e => e.1 == 2 && e.2.1 == 3)).length = 1 ∧
    (2, 3, some "False".data) ∈ (Builder.init.parse "if x").1.edges ∧
    calculate_metrics (Builder.init.parse "if x").1 = some ⟨4, 3, 1, 0, 1⟩ := by
  refine ⟨fun g u v l => add_edge_mem g u v l,
          fun g u v l l' => add_edge_length_of_mem _ u v l l' (add_edge_mem g u v l),
          fun g u v l l' hne => ⟨add_edge_overwrites g u v l l' hne, add_edge_mem _ u v l'⟩,
          by decide, by decide, by decide⟩

/-- C1 witness: the amended theorem applied at a concrete graph and pair
with distinct labels. -/
theorem claim_C1_amended_witness :
    (2, 3, (none : Option Line)) ∉
      ((Graph.empty.add_edge 2 3 none).add_edge 2 3 (some "False".data)).edges ∧
    (2, 3, some "False".data) ∈
      ((Graph.empty.add_edge 2 3 none).add_edge 2 3 (some "False".data)).edges :=
  claim_C1_amended.2.2.1 Graph.empty 2 3 none (some "False".data) (by decide)

/-- C2 (code bug): `parse` reassigns only `mode`, `lines` and `cursor`; the
`graph` and `node_counter` of a reused instance are NOT reset, so a second
`parse` call on the instance returned by a first call keeps the first
graph's three nodes and two edges and keeps counting node ids from 3,
producing a six-node graph instead of the fresh three-node graph required
by the claim. -/
theorem claim_C2_state_leak :
    ((Builder.init.parse "a").2.parse "a").1.nodes.map (fun p => p.1) = [1, 2, 3, 4, 5, 6] ∧
    ((Builder.init.parse "a").2.parse "a").1.edges =
      [(1, 2, none), (2, 3, none), (4, 5, none), (5, 6, none)] ∧
    (Builder.init.parse "a").1.nodes.map (fun p => p.1) = [1, 2, 3] ∧
    (Builder.init.parse "a").1.edges = [(1, 2, none), (2, 3, none)] ∧
    (Builder.init.parse "a").2.node_counter = 3 ∧
    ((Builder.init.parse "a").2.parse "a").1 ≠ (Builder.init.parse "a").1 := by
  refine ⟨by decide, by decide, by decide, by decide, by decide, by decide⟩

/-- C8: `calculate_metrics` is a pure function of the finished graph: it
returns the empty record (`none`) exactly on the empty graph, and otherwise
a record with `Nodes` the node count, `Edges` the edge count, `Predicates`
the number of nodes with more than one outgoing edge, `Complexity` exactly
`Edges - Nodes + 2`, and `Regions` equal to `Complexity`. -/
theorem claim_C8_metrics (g : Graph) :
    (g.nodes = [] → calculate_metrics g = none) ∧
    (g.nodes ≠ [] →
      calculate_metrics g = some
        ⟨g.nodes.length, g.edges.length,
         (g.edges.length : Int) - (g.nodes.length : Int) + 2,
         (g.nodes.filter (fun nd => 1 < g.out_degree nd.1)).length,
         (g.edges.length : Int) - (g.nodes.length : Int) + 2⟩) ∧
    (∀ m, calculate_metrics g = some m →
      m.Complexity = (m.Edges : Int) - (m.Nodes : Int) + 2 ∧
      m.Regions = m.Complexity ∧
      m.Nodes = g.nodes.length ∧
      m.Edges = g.edges.length ∧
      m.Predicates = (g.nodes.filter (fun nd => 1 < g.out_degree nd.1)).length) := by
  refine ⟨fun h => by simp [calculate_metrics, h], fun h => ?_, fun m hm => ?_⟩
  · rw [calculate_metrics, if_neg (by simpa [List.isEmpty_iff] using h)]
  · rw [calculate_metrics] at hm
    by_cases he : g.nodes.isEmpty
    · rw [if_pos he] at hm; cases hm
    · rw [if_neg he] at hm
      injection hm with hm
      subst hm
      exact ⟨rfl, rfl, rfl, rfl, rfl⟩

/-- C8 witness: the metrics theorem applied to the empty graph and to the
finished graph of input `"a"`. -/
theorem claim_C8_metrics_witness :
    calculate_metrics Graph.empty = none ∧
    calculate_metrics (Builder.init.parse "a").1 = some ⟨3, 2, 1, 0, 1⟩ := by
  constructor
  · exact (claim_C8_metrics Graph.empty).1 rfl
  · have h := ((claim_C8_metrics (Builder.init.parse "a").1).2.1 (by decide))
    rw [h]; decide

/-- C10: any input whose normalized line sequence is empty (empty text,
whitespace-only text, comment-only text) parses to exactly the two-node
graph START → END with one unlabeled edge, and the metrics are
`Nodes = 2, Edges = 1, Complexity = 1, Predicates = 0`. -/
theorem claim_C10_no_statement_lines (text : String)
    (h : (normalizeInput text).2 = []) :
    (Builder.init.parse text).1 =
      ⟨[(1, ⟨"START".data, "oval".data, "filled".data, "#C8E6C9".data⟩),
        (2, ⟨"END".data, "oval".data, "filled".data, "#FFCDD2".data⟩)],
       [(1, 2, none)]⟩ ∧
    calculate_metrics (Builder.init.parse text).1 = some ⟨2, 1, 1, 0, 1⟩ := by
  rcases hn : normalizeInput text with ⟨m, ls⟩
  rw [hn] at h
  simp only at h
  subst h
  have hp : Builder.init.parse text =
      ((⟨⟨[(1, ⟨"START".data, "oval".data, "filled".data, "#C8E6C9".data⟩),
           (2, ⟨"END".data, "oval".data, "filled".data, "#FFCDD2".data⟩)],
          [(1, 2, none)]⟩, 2, [], 0, m⟩ : Builder).graph,
        ⟨⟨[(1, ⟨"START".data, "oval".data, "filled".data, "#C8E6C9".data⟩),
           (2, ⟨"END".data, "oval".data, "filled".data, "#FFCDD2".data⟩)],
          [(1, 2, none)]⟩, 2, [], 0, m⟩) := by
    rw [Builder.parse, hn]
    cases m <;> rfl
  rw [hp]
  exact ⟨rfl, rfl⟩

/-- C10 witness: the empty input and a whitespace/comment-only input both
normalize to no statement lines and yield the START → END graph. -/
theorem claim_C10_witness :
    (Builder.init.parse "").1 =
      ⟨[(1, ⟨"START".data, "oval".data, "filled".data, "#C8E6C9".data⟩),
        (2, ⟨"END".data, "oval".data, "filled".data, "#FFCDD2".data⟩)],
       [(1, 2, none)]⟩ ∧
    calculate_metrics (Builder.init.parse "  \n# note\n  ").1 = some ⟨2, 1, 1, 0, 1⟩ :=
  ⟨(claim_C10_no_statement_lines "" (by decide)).1,
   (claim_C10_no_statement_lines "  \n# note\n  " (by decide)).2⟩

/-! ## Keyword prefix lemmas -/

/-- A line starting with `c :: p` starts with the character `c`. -/
theorem startswith_cons_head (l : Line) (c : Char) (p : Line)
    (h : startswith l (c :: p) = true) : ∃ t, l = c :: t := by
  cases l with
  | nil => simp [startswith, List.isPrefixOf] at h
  | cons a as =>
    simp only [startswith, List.isPrefixOf, Bool.and_eq_true, beq_iff_eq] at h
    exact ⟨as, by rw [h.1]⟩

/-- Keyword prefixes with distinct first characters are mutually exclusive. -/
theorem startswith_head_ne (l : Line) (c d : Char) (p q : Line)
    (h : startswith l (c :: p) = true) (hne : d ≠ c) :
    startswith l (d :: q) = false := by
  rcases startswith_cons_head l c p h with ⟨t, rfl⟩
  simp [startswith, List.isPrefixOf, hne]

/-- A line starting with the character `c` is not the one-character line `[d]`
for `c ≠ d` (stated on the `BEq` test used by the parser guards). -/
theorem startswith_beq_single (l : Line) (c : Char) (p : Line) (d : Char)
    (h : startswith l (c :: p) = true) (hne : c ≠ d) : (l == [d]) = false := by
  rcases startswith_cons_head l c p h with ⟨t, rfl⟩
  exact beq_eq_false_iff_ne.mpr (by simp [hne])

/-- `flush_buffer` never moves the cursor. -/
theorem flush_buffer_cursor (b : Builder) (cur : Nat) (buf : List Line) :
    (b.flush_buffer cur buf).2.cursor = b.cursor := by
  cases buf <;> rfl

/-- `flush_buffer` never changes the stored line sequence or the mode. -/
theorem flush_buffer_lines (b : Builder) (cur : Nat) (buf : List Line) :
    (b.flush_buffer cur buf).2.lines = b.lines ∧ (b.flush_buffer cur buf).2.mode = b.mode := by
  cases buf <;> exact ⟨rfl, rfl⟩

/-! ## Claim theorems: C3, C4, C5 -/

/-- C3: termination-by-peek.  (1) If the current un-consumed line begins with
`elif` or `else`, the block call flushes the buffer and returns the current
predecessor without advancing the cursor.  (2) A matching `}` line in brace
mode is consumed: the call returns with the cursor advanced past it.
(3) At end of input there is no line left to consume: the call flushes and
returns with every line of the input already consumed. -/
theorem claim_C3_termination_by_peek (fuel : Nat) (b : Builder) (cur : Nat) (buf : List Line) :
    (∀ h : b.cursor < b.lines.length,
      (startswith b.lines[b.cursor] "elif".data || startswith b.lines[b.cursor] "else".data)
          = true →
      Builder.parse_block_loop (fuel + 1) b cur buf = b.flush_buffer cur buf ∧
      (Builder.parse_block_loop (fuel + 1) b cur buf).2.cursor = b.cursor) ∧
    (∀ h : b.cursor < b.lines.length,
      b.mode = Mode.c_style → b.lines[b.cursor] = "\x7d".data →
      (Builder.parse_block_loop (fuel + 1) b cur buf).2.cursor = b.cursor + 1) ∧
    (b.lines.length ≤ b.cursor →
      Builder.parse_block_loop (fuel + 1) b cur buf = b.flush_buffer cur buf ∧
      (Builder.parse_block_loop (fuel + 1) b cur buf).2.cursor = b.cursor) := by
  refine ⟨fun h hg => ?_, fun h hm hl => ?_, fun h => ?_⟩
  · have he : Builder.parse_block_loop (fuel + 1) b cur buf = b.flush_buffer cur buf := by
      rw [Builder.parse_block_loop, dif_pos h, if_pos hg]
    exact ⟨he, by rw [he, flush_buffer_cursor]⟩
  · have hg : (startswith b.lines[b.cursor] "elif".data
        || startswith b.lines[b.cursor] "else".data) = false := by
      rw [hl]; decide
    have hc : (b.mode == Mode.c_style && b.lines[b.cursor] == "\x7d".data) = true := by
      rw [hl, hm]; decide
    rw [Builder.parse_block_loop, dif_pos h, if_neg (by simp [hg]), if_pos hc]
    simp only
    rw [flush_buffer_cursor]
  · have he : Builder.parse_block_loop (fuel + 1) b cur buf = b.flush_buffer cur buf := by
      rw [Builder.parse_block_loop, dif_neg (by omega)]
    exact ⟨he, by rw [he, flush_buffer_cursor]⟩

/-- C3 witness: the three behaviors at concrete states — an `elif` line is
left un-consumed, a `}` line in brace mode is consumed, end of input flushes
with nothing left. -/
theorem claim_C3_witness :
    (Builder.parse_block_loop 5 ⟨Graph.empty, 0, ["elif x".data], 0, Mode.python_style⟩ 1 []).2.cursor
        = 0 ∧
    (Builder.parse_block_loop 5 ⟨Graph.empty, 0, ["\x7d".data], 0, Mode.c_style⟩ 1 []).2.cursor
        = 1 ∧
    (Builder.parse_block_loop 5 ⟨Graph.empty, 0, ["a".data], 1, Mode.python_style⟩ 1 []).2.cursor
        = 1 :=
  ⟨((claim_C3_termination_by_peek 4 ⟨Graph.empty, 0, ["elif x".data], 0, Mode.python_style⟩ 1
      []).1 (by decide) (by decide)).2,
   (claim_C3_termination_by_peek 4 ⟨Graph.empty, 0, ["\x7d".data], 0, Mode.c_style⟩ 1
      []).2.1 (by decide) rfl rfl,
   ((claim_C3_termination_by_peek 4 ⟨Graph.empty, 0, ["a".data], 1, Mode.python_style⟩ 1
      []).2.2 (by decide)).2⟩

/-- The `return` branch of the block parser: flush, create the highlighted
statement node connected from the flushed predecessor, consume exactly the
one line, and return that node immediately. -/
theorem parse_block_return_step (fuel : Nat) (b : Builder) (cur : Nat) (buf : List Line)
    (h : b.cursor < b.lines.length)
    (hr : startswith b.lines[b.cursor] "return".data = true) :
    Builder.parse_block_loop (fuel + 1) b cur buf =
      (let p := b.flush_buffer cur buf
       let q := p.2.new_node b.lines[b.cursor] "box".data "#FFCDD2".data
       let b3 := q.2.connect p.1 q.1 none
       (q.1, { b3 with cursor := b3.cursor + 1 })) ∧
    (Builder.parse_block_loop (fuel + 1) b cur buf).2.cursor = b.cursor + 1 := by
  have h1 : (startswith b.lines[b.cursor] "elif".data
      || startswith b.lines[b.cursor] "else".data) = false := by
    rw [startswith_head_ne _ 'r' 'e' _ _ hr (by decide),
        startswith_head_ne _ 'r' 'e' _ _ hr (by decide)]
    rfl
  have h2 : (b.mode == Mode.c_style && b.lines[b.cursor] == "\x7d".data) = false := by
    rw [startswith_beq_single _ 'r' _ _ hr (by decide), Bool.and_false]
  have h3 : (b.mode == Mode.c_style && b.lines[b.cursor] == "\x7b".data) = false := by
    rw [startswith_beq_single _ 'r' _ _ hr (by decide), Bool.and_false]
  have h4 : (startswith b.lines[b.cursor] "for".data
      || startswith b.lines[b.cursor] "while".data) = false := by
    rw [startswith_head_ne _ 'r' 'f' _ _ hr (by decide),
        startswith_head_ne _ 'r' 'w' _ _ hr (by decide)]
    rfl
  have h5 : startswith b.lines[b.cursor] "if".data = false :=
    startswith_head_ne _ 'r' 'i' _ _ hr (by decide)
  have he : Builder.parse_block_loop (fuel + 1) b cur buf =
      (let p := b.flush_buffer cur buf
       let q := p.2.new_node b.lines[b.cursor] "box".data "#FFCDD2".data
       let b3 := q.2.connect p.1 q.1 none
       (q.1, { b3 with cursor := b3.cursor + 1 })) := by
    rw [Builder.parse_block_loop, dif_pos h, if_neg (by simp [h1]), if_neg (by simp [h2]),
        if_neg (by simp [h3]), if_neg (by simp [h4]), if_neg (by simp [h5]), if_pos hr]
  refine ⟨he, ?_⟩
  rw [he]
  simp [Builder.connect, Builder.new_node, flush_buffer_cursor]

/-- C4: the return quirk.  General part: a block-parse call whose current
line begins with `return` flushes the buffer, creates a highlighted
(`#FFCDD2`) statement node connected from the flushed predecessor, consumes
exactly that one line, and returns that node immediately — no further line
is processed by the call.  Concrete part: on
`if x: / return 1 / else: / y` the return node (node 3) is still connected
by an unlabeled edge into the chain's merge node (node 6). -/
theorem claim_C4_return_in_branch :
    (∀ (fuel : Nat) (b : Builder) (cur : Nat) (buf : List Line)
        (h : b.cursor < b.lines.length),
      startswith b.lines[b.cursor] "return".data = true →
      Builder.parse_block_loop (fuel + 1) b cur buf =
        (let p := b.flush_buffer cur buf
         let q := p.2.new_node b.lines[b.cursor] "box".data "#FFCDD2".data
         let b3 := q.2.connect p.1 q.1 none
         (q.1, { b3 with cursor := b3.cursor + 1 })) ∧
      (Builder.parse_block_loop (fuel + 1) b cur buf).2.cursor = b.cursor + 1) ∧
    (3, 6, (none : Option Line)) ∈
      (Builder.init.parse "if x:\n    return 1\nelse:\n    y").1.edges ∧
    (3, ⟨"return 1".data, "box".data, "filled".data, "#FFCDD2".data⟩) ∈
      (Builder.init.parse "if x:\n    return 1\nelse:\n    y").1.nodes ∧
    (6, ⟨"Merge".data, "point".data, "filled".data, "white".data⟩) ∈
      (Builder.init.parse "if x:\n    return 1\nelse:\n    y").1.nodes :=
  ⟨fun fuel b cur buf h hr => parse_block_return_step fuel b cur buf h hr,
   by decide, by decide, by decide⟩

/-- C4 witness: the general return-step applied at a concrete state: the
call returns the fresh node 2 and consumes exactly the return line. -/
theorem claim_C4_witness :
    (Builder.parse_block_loop 7 ⟨Graph.empty, 1, ["return 0".data], 0, Mode.python_style⟩ 1
       []).2.cursor = 1 :=
  ((claim_C4_return_in_branch).1 6 ⟨Graph.empty, 1, ["return 0".data], 0, Mode.python_style⟩ 1
    [] (by decide) (by decide)).2

/-- C5: the loop construct.  General part: a block-parse call whose current
line begins with `for` or `while` flushes, creates a diamond decision node
for the header, connects the flushed predecessor to it, consumes the header
line, recursively parses the body with the header as entry, connects the
body exit back to the header labeled `Loop` unconditionally (whatever the
body returned, including an early-return node), creates the `Exit Loop`
connector, connects header to it labeled `False`, and continues with the
exit connector as the new predecessor.  Concrete parts: scenario D
(`while x: / a`), the back-edge after an early `return`, and the exit
connector feeding the following statement in brace mode. -/
theorem claim_C5_loop_construct :
    (∀ (fuel : Nat) (b : Builder) (cur : Nat) (buf : List Line)
        (h : b.cursor < b.lines.length),
      (startswith b.lines[b.cursor] "for".data
          || startswith b.lines[b.cursor] "while".data) = true →
      Builder.parse_block_loop (fuel + 1) b cur buf =
        (let p := b.flush_buffer cur buf
         let q := p.2.new_node b.lines[b.cursor] "diamond".data "#FFF9C4".data
         let b3 := { q.2.connect p.1 q.1 none with cursor := b.cursor + 1 }
         let r := Builder.parse_block_loop fuel b3 q.1 []
         let b5 := r.2.connect r.1 q.1 (some "Loop".data)
         let s := b5.new_node "Exit Loop".data "point".data "white".data
         let b7 := s.2.connect q.1 s.1 (some "False".data)
         Builder.parse_block_loop fuel b7 s.1 [])) ∧
    (Builder.init.parse "while x:\n    a").1.edges =
      [(1, 2, none), (2, 3, none), (3, 2, some "Loop".data),
       (2, 4, some "False".data), (4, 5, none)] ∧
    (4, ⟨"Exit Loop".data, "point".data, "filled".data, "white".data⟩) ∈
      (Builder.init.parse "while x:\n    a").1.nodes ∧
    (3, 2, some "Loop".data) ∈ (Builder.init.parse "while x:\n    return 1").1.edges ∧
    (3, ⟨"return 1".data, "box".data, "filled".data, "#FFCDD2".data⟩) ∈
      (Builder.init.parse "while x:\n    return 1").1.nodes ∧
    (4, 5, (none : Option Line)) ∈ (Builder.init.parse "while x \x7b a \x7d b").1.edges ∧
    (5, ⟨"b".data, "box".data, "filled".data, "white".data⟩) ∈
      (Builder.init.parse "while x \x7b a \x7d b").1.nodes := by
  refine ⟨fun fuel b cur buf h hfw => ?_, by decide, by decide, by decide, by decide,
    by decide, by decide⟩
  have hfw2 : startswith b.lines[b.cursor] "for".data = true
      ∨ startswith b.lines[b.cursor] "while".data = true := by simpa using hfw
  rcases hfw2 with hf | hf
  · have h1 : (startswith b.lines[b.cursor] "elif".data
        || startswith b.lines[b.cursor] "else".data) = false := by
      rw [startswith_head_ne _ 'f' 'e' _ _ hf (by decide),
          startswith_head_ne _ 'f' 'e' _ _ hf (by decide)]
      rfl
    have h2 : (b.mode == Mode.c_style && b.lines[b.cursor] == "\x7d".data) = false := by
      rw [startswith_beq_single _ 'f' _ _ hf (by decide), Bool.and_false]
    have h3 : (b.mode == Mode.c_style && b.lines[b.cursor] == "\x7b".data) = false := by
      rw [startswith_beq_single _ 'f' _ _ hf (by decide), Bool.and_false]
    rw [Builder.parse_block_loop, dif_pos h, if_neg (by simp [h1]), if_neg (by simp [h2]),
        if_neg (by simp [h3]), if_pos hfw]
  · have h1 : (startswith b.lines[b.cursor] "elif".data
        || startswith b.lines[b.cursor] "else".data) = false := by
      rw [startswith_head_ne _ 'w' 'e' _ _ hf (by decide),
          startswith_head_ne _ 'w' 'e' _ _ hf (by decide)]
      rfl
    have h2 : (b.mode == Mode.c_style && b.lines[b.cursor] == "\x7d".data) = false := by
      rw [startswith_beq_single _ 'w' _ _ hf (by decide), Bool.and_false]
    have h3 : (b.mode == Mode.c_style && b.lines[b.cursor] == "\x7b".data) = false := by
      rw [startswith_beq_single _ 'w' _ _ hf (by decide), Bool.and_false]
    rw [Builder.parse_block_loop, dif_pos h, if_neg (by simp [h1]), if_neg (by simp [h2]),
        if_neg (by simp [h3]), if_pos hfw]

/-- C5 witness: the loop-construct step applied at a concrete one-line
state `while x`. -/
theorem claim_C5_witness :
    Builder.parse_block_loop 3 ⟨Graph.empty, 1, ["while x".data], 0, Mode.python_style⟩ 1 [] =
      (let b : Builder := ⟨Graph.empty, 1, ["while x".data], 0, Mode.python_style⟩
       let p := b.flush_buffer 1 []
       let q := p.2.new_node "while x".data "diamond".data "#FFF9C4".data
       let b3 := { q.2.connect p.1 q.1 none with cursor := b.cursor + 1 }
       let r := Builder.parse_block_loop 2 b3 q.1 []
       let b5 := r.2.connect r.1 q.1 (some "Loop".data)
       let s := b5.new_node "Exit Loop".data "point".data "white".data
       let b7 := s.2.connect q.1 s.1 (some "False".data)
       Builder.parse_block_loop 2 b7 s.1 []) :=
  (claim_C5_loop_construct).1 2 ⟨Graph.empty, 1, ["while x".data], 0, Mode.python_style⟩ 1 []
    (by decide) (by decide)

/-! ## Lemmas on nodes/edges preservation and the merge fold -/

/-- `add_edge` never changes the node list. -/
theorem add_edge_nodes (g : Graph) (u v : Nat) (l : Option Line) :
    (g.add_edge u v l).nodes = g.nodes := by
  unfold Graph.add_edge; split <;> rfl

/-- `add_node` never changes the edge list. -/
theorem add_node_edges (g : Graph) (i : Nat) (d : NodeData) :
    (g.add_node i d).edges = g.edges := by
  unfold Graph.add_node; split <;> rfl

/-- After `add_node i d`, the node `(i, d)` is stored. -/
theorem add_node_mem (g : Graph) (i : Nat) (d : NodeData) :
    (i, d) ∈ (g.add_node i d).nodes := by
  unfold Graph.add_node
  split
  · next hany =>
    rcases List.any_eq_true.mp hany with ⟨e, he, hm⟩
    exact List.mem_map.mpr ⟨e, he, by simp [hm]⟩
  · simp

/-- An edge on a different ordered pair survives `add_edge`. -/
theorem mem_add_edge_of_ne (g : Graph) (u v : Nat) (l : Option Line)
    (x : Nat × Nat × Option Line) (hx : x ∈ g.edges) (hne : ¬(x.1 = u ∧ x.2.1 = v)) :
    x ∈ (g.add_edge u v l).edges := by
  unfold Graph.add_edge
  split
  · refine List.mem_map.mpr ⟨x, hx, ?_⟩
    rw [if_neg (by simp [hne])]
  · exact List.mem_append_left _ hx

/-- The merge fold never changes the node list. -/
theorem fold_connect_nodes (eps : List Nat) (b : Builder) (m : Nat) :
    ((eps.foldl (fun acc q => acc.connect q m none) b)).graph.nodes = b.graph.nodes := by
  induction eps generalizing b with
  | nil => rfl
  | cons q qs ih =>
    rw [List.foldl_cons, ih]
    exact add_edge_nodes b.graph q m none

/-- An unlabeled edge into the merge target survives the rest of the fold. -/
theorem fold_connect_mem_pres (qs : List Nat) (b : Builder) (m p : Nat)
    (hp : (p, m, (none : Option Line)) ∈ b.graph.edges) :
    (p, m, (none : Option Line)) ∈
      ((qs.foldl (fun acc q => acc.connect q m none) b)).graph.edges := by
  induction qs generalizing b with
  | nil => exact hp
  | cons r rs ih =>
    rw [List.foldl_cons]
    apply ih
    by_cases hr : r = p
    · subst hr; exact add_edge_mem _ r m none
    · exact mem_add_edge_of_ne _ r m none _ hp (fun hc => hr hc.1.symm)

/-- The merge fold connects every listed exit point unlabeled to the merge
target. -/
theorem fold_connect_mem (eps : List Nat) (b : Builder) (m p : Nat) (hp : p ∈ eps) :
    (p, m, (none : Option Line)) ∈
      ((eps.foldl (fun acc q => acc.connect q m none) b)).graph.edges := by
  induction eps generalizing b with
  | nil => cases hp
  | cons q qs ih =>
    rw [List.foldl_cons]
    rcases List.mem_cons.mp hp with h | h
    · subst h; exact fold_connect_mem_pres qs _ m p (add_edge_mem _ p m none)
    · exact ih _ h

/-- Every edge present after the merge fold is an original edge or an
unlabeled edge into the merge target. -/
theorem fold_connect_elim (eps : List Nat) (b : Builder) (m : Nat)
    (x : Nat × Nat × Option Line)
    (hx : x ∈ ((eps.foldl (fun acc q => acc.connect q m none) b)).graph.edges) :
    x ∈ b.graph.edges ∨ (x.2.1 = m ∧ x.2.2 = none) := by
  induction eps generalizing b with
  | nil => exact Or.inl hx
  | cons q qs ih =>
    rw [List.foldl_cons] at hx
    rcases ih _ hx with h | h
    · rcases mem_add_edge_elim _ q m none x h with h2 | h2
      · right; rw [h2]; exact ⟨rfl, rfl⟩
      · exact Or.inl h2.1
    · exact Or.inr h

/-! ## Claim theorems: C6 -/

/-- C6 counterexample.  On input `"if x"` — a one-`if` chain with an empty
branch and no `else` — the recorded branch-exit is the decision node 2
itself and the merge node is 3.  The claim requires an unlabeled edge from
every recorded branch-exit to the merge node plus an additional
`False`-labeled edge from the last open decision; instead the single stored
`(2, 3)` edge carries the label `False` (the `False` connect overwrote the
unlabeled one), there is no unlabeled edge from the branch-exit to the
merge node, and only one edge enters the merge node. -/
theorem claim_C6_counterexample :
    (2, 3, (none : Option Line)) ∉ (Builder.init.parse "if x").1.edges ∧
    (2, 3, some "False".data) ∈ (Builder.init.parse "if x").1.edges ∧
    ((Builder.init.parse "if x").1.edges.filter (fun e => e.2.1 == 3)).length = 1 ∧
    (3, ⟨"Merge".data, "point".data, "filled".data, "white".data⟩) ∈
      (Builder.init.parse "if x").1.nodes := by
  refine ⟨by decide, by decide, by decide, by decide⟩

/-- C6 amended.  (1) The `if` branch of the block parser creates, after the
branches are parsed, exactly one merge connector node (the next fresh id)
and continues with it as the new predecessor.  (2) The merge step connects
every recorded branch-exit to the merge node with an unlabeled `connect`;
in the stored graph this leaves an unlabeled edge from every branch-exit
that is not also the last open decision, and every branch-exit keeps some
edge into the merge node; if the chain was closed by an `else`
(`last_decision = none`), every edge into the merge node is unlabeled (no
dangling `False` edge); if the chain stayed open (`last_decision = some d`),
`d` is connected to the merge node labeled `False` — as a separate edge
when `d` is not itself a recorded branch-exit, otherwise overwriting that
exit's unlabeled edge (the single stored edge then carries `False`).
(3) Concretely: an open chain with a nonempty branch keeps both the
unlabeled exit edge and the separate `False` edge; a chain closed by `else`
has only unlabeled edges into its merge node. -/
theorem claim_C6_chain_closure :
    (∀ (fuel : Nat) (b : Builder) (cur : Nat) (buf : List Line)
        (h : b.cursor < b.lines.length),
      startswith b.lines[b.cursor] "if".data = true →
      Builder.parse_block_loop (fuel + 1) b cur buf =
        (let p := b.flush_buffer cur buf
         let q := p.2.new_node b.lines[b.cursor] "diamond".data "#FFE0B2".data
         let b3 := { q.2.connect p.1 q.1 none with cursor := b.cursor + 1 }
         let r := Builder.parse_block_loop fuel b3 q.1 []
         let c := Builder.parse_chain fuel r.2 q.1 [r.1]
         let m := c.2.2.merge_exits c.2.1 c.1
         Builder.parse_block_loop fuel m.2 m.1 [])) ∧
    (∀ (b : Builder) (eps : List Nat) (ld : Option Nat),
      (b.merge_exits eps ld).1 = b.node_counter + 1 ∧
      ((b.merge_exits eps ld).1, ⟨"Merge".data, "point".data, "filled".data, "white".data⟩) ∈
        (b.merge_exits eps ld).2.graph.nodes ∧
      (∀ p ∈ eps, ∃ l, (p, (b.merge_exits eps ld).1, l) ∈
        (b.merge_exits eps ld).2.graph.edges) ∧
      (∀ p ∈ eps, ld ≠ some p → (p, (b.merge_exits eps ld).1, (none : Option Line)) ∈
        (b.merge_exits eps ld).2.graph.edges) ∧
      (∀ d, ld = some d → (d, (b.merge_exits eps ld).1, some "False".data) ∈
        (b.merge_exits eps ld).2.graph.edges) ∧
      (ld = none → (∀ e ∈ b.graph.edges, e.2.1 ≤ b.node_counter) →
        ∀ u l, (u, (b.merge_exits eps ld).1, l) ∈ (b.merge_exits eps ld).2.graph.edges →
          l = none)) ∧
    (Builder.init.parse "if x:\n    a").1.edges =
      [(1, 2, none), (2, 3, none), (3, 4, none), (2, 4, some "False".data), (4, 5, none)] ∧
    ((Builder.init.parse "if x:\n    a\nelse:\n    b").1.edges.filter
        (fun e => e.2.1 == 6 && e.2.2 == some "False".data)) = [] ∧
    (3, 6, (none : Option Line)) ∈ (Builder.init.parse "if x:\n    a\nelse:\n    b").1.edges ∧
    (5, 6, (none : Option Line)) ∈ (Builder.init.parse "if x:\n    a\nelse:\n    b").1.edges := by
  refine ⟨fun fuel b cur buf h hif => ?_, fun b eps ld => ?_, by decide, by decide,
    by decide, by decide⟩
  · have h1 : (startswith b.lines[b.cursor] "elif".data
        || startswith b.lines[b.cursor] "else".data) = false := by
      rw [startswith_head_ne _ 'i' 'e' _ _ hif (by decide),
          startswith_head_ne _ 'i' 'e' _ _ hif (by decide)]
      rfl
    have h2 : (b.mode == Mode.c_style && b.lines[b.cursor] == "\x7d".data) = false := by
      rw [startswith_beq_single _ 'i' _ _ hif (by decide), Bool.and_false]
    have h3 : (b.mode == Mode.c_style && b.lines[b.cursor] == "\x7b".data) = false := by
      rw [startswith_beq_single _ 'i' _ _ hif (by decide), Bool.and_false]
    have h4 : (startswith b.lines[b.cursor] "for".data
        || startswith b.lines[b.cursor] "while".data) = false := by
      rw [startswith_head_ne _ 'i' 'f' _ _ hif (by decide),
          startswith_head_ne _ 'i' 'w' _ _ hif (by decide)]
      rfl
    rw [Builder.parse_block_loop, dif_pos h, if_neg (by simp [h1]), if_neg (by simp [h2]),
        if_neg (by simp [h3]), if_neg (by simp [h4]), if_pos hif]
  · cases ld with
    | none =>
      simp only [Builder.merge_exits]
      refine ⟨rfl, ?_, ?_, ?_, ?_, ?_⟩
      · rw [fold_connect_nodes]
        exact add_node_mem _ _ _
      · intro p hp
        exact ⟨none, fold_connect_mem eps _ _ p hp⟩
      · intro p hp _
        exact fold_connect_mem eps _ _ p hp
      · intro d hd; cases hd
      · intro _ hwf u l hmem
        rcases fold_connect_elim eps _ _ _ hmem with hold | hnew
        · have he : ((b.new_node "Merge".data "point".data "white".data).2).graph.edges
              = b.graph.edges := add_node_edges _ _ _
          rw [he] at hold
          have h2 := hwf _ hold
          simp only [Builder.new_node] at h2
          omega
        · exact hnew.2
    | some d =>
      simp only [Builder.merge_exits]
      refine ⟨rfl, ?_, ?_, ?_, ?_, ?_⟩
      · show _ ∈ ((_ : Builder).connect d _ _).graph.nodes
        rw [Builder.connect] at *
        simp only
        rw [add_edge_nodes, fold_connect_nodes]
        exact add_node_mem _ _ _
      · intro p hp
        by_cases hdp : d = p
        · subst hdp
          exact ⟨some "False".data, add_edge_mem _ d _ _⟩
        · refine ⟨none, mem_add_edge_of_ne _ d _ _ _ (fold_connect_mem eps _ _ p hp) ?_⟩
          exact fun hc => hdp hc.1.symm
      · intro p hp hne
        have hdp : d ≠ p := fun hh => hne (by rw [hh])
        refine mem_add_edge_of_ne _ d _ _ _ (fold_connect_mem eps _ _ p hp) ?_
        exact fun hc => hdp hc.1.symm
      · intro d2 hd2
        injection hd2 with hd2
        subst hd2
        exact add_edge_mem _ d _ _
      · intro hc; cases hc

/-- C6 witness: the merge step applied at a concrete state — an open chain
whose only recorded exit is also the last open decision (node 2): the single
stored edge into the merge node 3 carries `False`, and, at another state, a
closed chain (`last_decision = none`) leaves every merge edge unlabeled. -/
theorem claim_C6_witness :
    (2, 3, some "False".data) ∈
      ((⟨⟨[(2, ⟨"if x".data, "diamond".data, "filled".data, "#FFE0B2".data⟩)], []⟩, 2,
          ["if x".data], 1, Mode.python_style⟩ : Builder).merge_exits [2]
            (some 2)).2.graph.edges ∧
    ((⟨⟨[(2, ⟨"if x".data, "diamond".data, "filled".data, "#FFE0B2".data⟩)], []⟩, 2,
        ["if x".data], 1, Mode.python_style⟩ : Builder).merge_exits [2] (some 2)).1 = 3 ∧
    (2, 3, (none : Option Line)) ∈
      ((⟨⟨[(2, ⟨"if x".data, "diamond".data, "filled".data, "#FFE0B2".data⟩)], []⟩, 2,
          ["if x".data], 1, Mode.python_style⟩ : Builder).merge_exits [2]
            (none : Option Nat)).2.graph.edges := by
  refine ⟨(claim_C6_chain_closure.2.1 _ [2] (some 2)).2.2.2.2.1 2 rfl, ?_, ?_⟩
  · exact (claim_C6_chain_closure.2.1
      (⟨⟨[(2, ⟨"if x".data, "diamond".data, "filled".data, "#FFE0B2".data⟩)], []⟩, 2,
        ["if x".data], 1, Mode.python_style⟩ : Builder) [2] (some 2)).1
  · exact (claim_C6_chain_closure.2.1 _ [2] none).2.2.2.1 2 (List.mem_singleton.mpr rfl)
      (by intro hc; cases hc)

/-! ## The buffering run over plain statement lines, and claim C9 -/

/-- Indexing just past a prefix hits the following element. -/
theorem getElem_append_cons {α : Type} (as : List α) (x : α) (bs : List α)
    (h : as.length < (as ++ x :: bs).length) :
    (as ++ x :: bs)[as.length] = x := by
  induction as with
  | nil => rfl
  | cons a as2 ih =>
    simp only [List.cons_append, List.length_cons, List.getElem_cons_succ]
    exact ih (by simp)

/-- Decomposition of `is_control l = false` into the six keyword tests. -/
theorem is_control_false (l : Line) (h : is_control l = false) :
    startswith l "elif".data = false ∧ startswith l "else".data = false ∧
    startswith l "for".data = false ∧ startswith l "while".data = false ∧
    startswith l "if".data = false ∧ startswith l "return".data = false := by
  simp only [is_control, Bool.or_eq_false_iff] at h
  exact ⟨h.1.1.1.1.1, h.1.1.1.1.2, h.1.1.1.2, h.1.1.2, h.1.2, h.2⟩

/-- A run of non-control lines in python mode is consumed one line at a time
into the buffer: the block parser over `pre ++ ...` with enough fuel equals
the block parser continued past `pre` with `pre` appended to the buffer,
with no graph effect. -/
theorem parse_block_plain_run (pre : List Line)
    (hpre : ∀ l ∈ pre, is_control l = false) :
    ∀ (k : Nat) (done suffix : List Line) (b : Builder) (cur : Nat) (buf : List Line),
      b.mode = Mode.python_style →
      b.lines = done ++ pre ++ suffix →
      b.cursor = done.length →
      Builder.parse_block_loop (pre.length + k) b cur buf =
        Builder.parse_block_loop k { b with cursor := b.cursor + pre.length } cur (buf ++ pre) := by
  induction pre with
  | nil =>
    intro k done suffix b cur buf hmode hlines hcursor
    simp
  | cons l pre ih =>
    intro k done suffix b cur buf hmode hlines hcursor
    obtain ⟨h1e, h2e, h3e, h4e, h5e, h6e⟩ :=
      is_control_false l (hpre l (List.mem_cons_self l pre))
    have hlines2 : b.lines = done ++ l :: (pre ++ suffix) := by
      rw [hlines]; simp
    have hbound : b.cursor < b.lines.length := by
      rw [hlines2, hcursor]
      simp only [List.length_append, List.length_cons]
      omega
    have hline : b.lines[b.cursor] = l := by
      have hb3 : done.length < (done ++ l :: (pre ++ suffix)).length := by
        simp only [List.length_append, List.length_cons]; omega
      have hx := getElem_append_cons done l (pre ++ suffix) hb3
      simp only [hlines2, hcursor]
      exact hx
    have hbg : (b.mode == Mode.c_style) = false := by rw [hmode]; rfl
    have hfe : (l :: pre).length + k = pre.length + k + 1 := by
      simp only [List.length_cons]; omega
    rw [hfe, Builder.parse_block_loop, dif_pos hbound, hline,
        if_neg (by simp [h1e, h2e]), if_neg (by simp [hbg]), if_neg (by simp [hbg]),
        if_neg (by simp [h3e, h4e]), if_neg (by simp [h5e]), if_neg (by simp [h6e])]
    rw [ih (fun x hx => hpre x (List.mem_cons_of_mem _ hx)) k (done ++ [l]) suffix
        { b with cursor := b.cursor + 1 } cur (buf ++ [l]) hmode
        (by rw [hlines]; simp) (by rw [hcursor]; simp)]
    have e1 : b.cursor + 1 + pre.length = b.cursor + (l :: pre).length := by
      simp only [List.length_cons]; omega
    have e2 : (buf ++ [l]) ++ pre = buf ++ l :: pre := by simp
    rw [e1, e2]

/-- C9: a `return` at the top nesting level.  If the normalized input is a
run of plain (non-control) lines followed by a `return` line and then any
remaining lines whatsoever, the finished graph is exactly START, the
coalesced statement node for the plain run (when nonempty), the highlighted
return node, and END, in a single chain of unlabeled edges ending at END —
the graph does not depend on the lines after the `return`: no node or edge
is created for any of them. -/
theorem claim_C9_top_level_return (text : String) (pre : List Line) (retLine : Line)
    (rest : List Line)
    (hn : normalizeInput text = (Mode.python_style, pre ++ retLine :: rest))
    (hpre : ∀ l ∈ pre, is_control l = false)
    (hret : startswith retLine "return".data = true) :
    (Builder.init.parse text).1 =
      if pre = [] then
        ⟨[(1, ⟨"START".data, "oval".data, "filled".data, "#C8E6C9".data⟩),
          (2, ⟨clean_label retLine, "box".data, "filled".data, "#FFCDD2".data⟩),
          (3, ⟨"END".data, "oval".data, "filled".data, "#FFCDD2".data⟩)],
         [(1, 2, none), (2, 3, none)]⟩
      else
        ⟨[(1, ⟨"START".data, "oval".data, "filled".data, "#C8E6C9".data⟩),
          (2, ⟨clean_label (List.intercalate ['\n'] pre), "box".data, "filled".data,
              "white".data⟩),
          (3, ⟨clean_label retLine, "box".data, "filled".data, "#FFCDD2".data⟩),
          (4, ⟨"END".data, "oval".data, "filled".data, "#FFCDD2".data⟩)],
         [(1, 2, none), (2, 3, none), (3, 4, none)]⟩ := by
  rcases pre with _ | ⟨p0, ps⟩
  · rw [if_pos rfl]
    simp only [List.nil_append] at hn
    have h1 : Builder.init.parse text =
        (let r := Builder.parse_block_loop ((retLine :: rest).length + 1)
          ⟨⟨[(1, ⟨"START".data, "oval".data, "filled".data, "#C8E6C9".data⟩)], []⟩, 1,
            retLine :: rest, 0, Mode.python_style⟩ 1 []
         let q := r.2.new_node "END".data "oval".data "#FFCDD2".data
         let b5 := q.2.connect r.1 q.1 none
         (b5.graph, b5)) := by
      simp only [Builder.parse]
      rw [hn]
      rfl
    have hf : (retLine :: rest).length + 1 = (rest.length + 1) + 1 := by simp
    rw [hf] at h1
    rw [(parse_block_return_step (rest.length + 1)
        ⟨⟨[(1, ⟨"START".data, "oval".data, "filled".data, "#C8E6C9".data⟩)], []⟩, 1,
          retLine :: rest, 0, Mode.python_style⟩ 1 [] (by simp) hret).1] at h1
    rw [h1]
    rfl
  · rw [if_neg (by simp)]
    have h1 : Builder.init.parse text =
        (let r := Builder.parse_block_loop (((p0 :: ps) ++ retLine :: rest).length + 1)
          ⟨⟨[(1, ⟨"START".data, "oval".data, "filled".data, "#C8E6C9".data⟩)], []⟩, 1,
            (p0 :: ps) ++ retLine :: rest, 0, Mode.python_style⟩ 1 []
         let q := r.2.new_node "END".data "oval".data "#FFCDD2".data
         let b5 := q.2.connect r.1 q.1 none
         (b5.graph, b5)) := by
      simp only [Builder.parse]
      rw [hn]
      rfl
    have hf : ((p0 :: ps) ++ retLine :: rest).length + 1 =
        (p0 :: ps).length + ((rest.length + 1) + 1) := by
      simp only [List.length_append, List.length_cons]; omega
    rw [hf] at h1
    rw [parse_block_plain_run (p0 :: ps) hpre ((rest.length + 1) + 1) [] (retLine :: rest)
        ⟨⟨[(1, ⟨"START".data, "oval".data, "filled".data, "#C8E6C9".data⟩)], []⟩, 1,
          (p0 :: ps) ++ retLine :: rest, 0, Mode.python_style⟩ 1 [] rfl rfl rfl] at h1
    have e3 : ({(⟨⟨[(1, ⟨"START".data, "oval".data, "filled".data, "#C8E6C9".data⟩)], []⟩, 1,
          (p0 :: ps) ++ retLine :: rest, 0, Mode.python_style⟩ : Builder) with
            cursor := (⟨⟨[(1, ⟨"START".data, "oval".data, "filled".data, "#C8E6C9".data⟩)],
              []⟩, 1, (p0 :: ps) ++ retLine :: rest, 0, Mode.python_style⟩ : Builder).cursor
              + (p0 :: ps).length} : Builder) =
        ⟨⟨[(1, ⟨"START".data, "oval".data, "filled".data, "#C8E6C9".data⟩)], []⟩, 1,
          (p0 :: ps) ++ retLine :: rest, (p0 :: ps).length, Mode.python_style⟩ := by
      simp
    rw [e3] at h1
    simp only [List.nil_append] at h1
    have hbound : ((p0 :: ps).length : Nat) < ((p0 :: ps) ++ retLine :: rest).length := by
      simp only [List.length_append, List.length_cons]; omega
    have hline3 : ((p0 :: ps) ++ retLine :: rest)[(p0 :: ps).length] = retLine :=
      getElem_append_cons (p0 :: ps) retLine rest hbound
    rw [(parse_block_return_step (rest.length + 1)
        ⟨⟨[(1, ⟨"START".data, "oval".data, "filled".data, "#C8E6C9".data⟩)], []⟩, 1,
          (p0 :: ps) ++ retLine :: rest, (p0 :: ps).length, Mode.python_style⟩ 1 (p0 :: ps)
        hbound (by rw [hline3]; exact hret)).1] at h1
    rw [hline3] at h1
    rw [h1]
    rfl

/-- C9 witness: on `a / return 1 / b / c` the lines after the top-level
`return` are silently ignored: the graph is exactly
START → `a` → `return 1` → END. -/
theorem claim_C9_witness :
    (Builder.init.parse "a\nreturn 1\nb\nc").1 =
      ⟨[(1, ⟨"START".data, "oval".data, "filled".data, "#C8E6C9".data⟩),
        (2, ⟨"a".data, "box".data, "filled".data, "white".data⟩),
        (3, ⟨"return 1".data, "box".data, "filled".data, "#FFCDD2".data⟩),
        (4, ⟨"END".data, "oval".data, "filled".data, "#FFCDD2".data⟩)],
       [(1, 2, none), (2, 3, none), (3, 4, none)]⟩ := by
  have h := claim_C9_top_level_return "a\nreturn 1\nb\nc" ["a".data] "return 1".data
    ["b".data, "c".data] (by decide) (by decide) (by decide)
  rw [if_neg (by simp)] at h
  exact h.trans (by decide)

/-! ## Id / pair monotonicity of the graph operations -/

theorem add_node_pairs (g : Graph) (i : Nat) (d : NodeData) :
    (g.add_node i d).pairs = g.pairs := by
  unfold Graph.pairs
  rw [add_node_edges]

theorem add_edge_ids (g : Graph) (u v : Nat) (l : Option Line) :
    (g.add_edge u v l).ids = g.ids := by
  unfold Graph.ids
  rw [add_edge_nodes]

theorem add_node_ids_self (g : Graph) (i : Nat) (d : NodeData) :
    i ∈ (g.add_node i d).ids :=
  List.mem_map.mpr ⟨(i, d), add_node_mem g i d, rfl⟩

theorem add_node_ids_sub (g : Graph) (i : Nat) (d : NodeData) (j : Nat) (hj : j ∈ g.ids) :
    j ∈ (g.add_node i d).ids := by
  rcases List.mem_map.mp hj with ⟨p, hp, hpj⟩
  unfold Graph.add_node
  split
  · refine List.mem_map.mpr ⟨(fun q => if q.1 == i then (i, d) else q) p, List.mem_map.mpr ⟨p, hp, rfl⟩, ?_⟩
    by_cases hc : (p.1 == i) = true
    · simp only [if_pos hc]
      have : p.1 = i := by simpa using hc
      rw [← hpj, this]
    · simp only [if_neg hc]
      exact hpj
  · exact List.mem_map.mpr ⟨p, List.mem_append_left _ hp, hpj⟩

theorem add_node_ids_elim (g : Graph) (i : Nat) (d : NodeData) (j : Nat)
    (hj : j ∈ (g.add_node i d).ids) : j ∈ g.ids ∨ j = i := by
  rcases List.mem_map.mp hj with ⟨p, hp, hpj⟩
  unfold Graph.add_node at hp
  split at hp
  · rcases List.mem_map.mp hp with ⟨q, hq, hqp⟩
    by_cases hc : (q.1 == i) = true
    · rw [if_pos hc] at hqp
      right; rw [← hpj, ← hqp]
    · rw [if_neg hc] at hqp
      left; exact List.mem_map.mpr ⟨q, hq, by rw [hqp, hpj]⟩
  · rcases List.mem_append.mp hp with h | h
    · exact Or.inl (List.mem_map.mpr ⟨p, h, hpj⟩)
    · right
      have : p = (i, d) := by simpa using h
      rw [← hpj, this]

/-- A node entry whose id differs from the inserted id survives `add_node`. -/
theorem mem_add_node_of_ne (g : Graph) (i : Nat) (d : NodeData)
    (x : Nat × NodeData) (hx : x ∈ g.nodes) (hne : x.1 ≠ i) :
    x ∈ (g.add_node i d).nodes := by
  unfold Graph.add_node
  split
  · refine List.mem_map.mpr ⟨x, hx, ?_⟩
    rw [if_neg (by simpa using hne)]
  · exact List.mem_append_left _ hx

theorem mem_pairs_add_edge (g : Graph) (u v : Nat) (l : Option Line) :
    (u, v) ∈ (g.add_edge u v l).pairs :=
  List.mem_map.mpr ⟨(u, v, l), add_edge_mem g u v l, rfl⟩

theorem pairs_sub_add_edge (g : Graph) (u v : Nat) (l : Option Line)
    (p : Nat × Nat) (hp : p ∈ g.pairs) : p ∈ (g.add_edge u v l).pairs := by
  rcases List.mem_map.mp hp with ⟨e, he, hep⟩
  unfold Graph.add_edge
  split
  · refine List.mem_map.mpr
      ⟨(fun x => if x.1 == u && x.2.1 == v then (u, v, l) else x) e,
       List.mem_map.mpr ⟨e, he, rfl⟩, ?_⟩
    by_cases hc : (e.1 == u && e.2.1 == v) = true
    · simp only [if_pos hc]
      have h1 : e.1 = u ∧ e.2.1 = v := by simpa using hc
      rw [← hep, h1.1, h1.2]
    · simp only [if_neg hc]
      exact hep
  · exact List.mem_map.mpr ⟨e, List.mem_append_left _ he, hep⟩

theorem pairs_add_edge_elim (g : Graph) (u v : Nat) (l : Option Line)
    (p : Nat × Nat) (hp : p ∈ (g.add_edge u v l).pairs) :
    p ∈ g.pairs ∨ p = (u, v) := by
  rcases List.mem_map.mp hp with ⟨e, he, hep⟩
  rcases mem_add_edge_elim g u v l e he with h | h
  · right; rw [← hep, h]
  · exact Or.inl (List.mem_map.mpr ⟨e, h.1, hep⟩)

/-- Reachability is monotone under adding edge pairs. -/
theorem reach_mono {g g2 : Graph} (hsub : ∀ p ∈ g.pairs, p ∈ g2.pairs)
    {a b : Nat} (h : g.Reach a b) : g2.Reach a b :=
  Relation.ReflTransGen.mono (fun _ _ hxy => hsub _ hxy) h

theorem hasIn_mono {g g2 : Graph} (hsub : ∀ p ∈ g.pairs, p ∈ g2.pairs)
    {v : Nat} (h : g.hasIn v) : g2.hasIn v := by
  rcases h with ⟨u, hu⟩
  exact ⟨u, hsub _ hu⟩

/-! ## The `BExt` calculus -/

theorem bext_refl (n root : Nat) (s : Builder) : BExt n root s s where
  lines_eq := rfl
  mode_eq := rfl
  counter_le := Nat.le_refl _
  ids_sub := fun _ h => h
  pairs_sub := fun _ h => h
  new_ids := fun _ h => Or.inl h
  new_pairs := fun _ h => Or.inl h
  wf_pres := fun h => ⟨h, fun _ hx => hx⟩

/-- Changing only the cursor is a trivial extension. -/
theorem bext_cursor (n root : Nat) (s : Builder) (k : Nat) :
    BExt n root s { s with cursor := k } where
  lines_eq := rfl
  mode_eq := rfl
  counter_le := Nat.le_refl _
  ids_sub := fun _ h => h
  pairs_sub := fun _ h => h
  new_ids := fun _ h => Or.inl h
  new_pairs := fun _ h => Or.inl h
  wf_pres := fun h => ⟨h, fun _ hx => hx⟩

/-- An extension also extends from any smaller id bound. -/
theorem BExt.weaken {n m root : Nat} {s s2 : Builder} (hmn : m ≤ n)
    (h : BExt n root s s2) : BExt m root s s2 where
  lines_eq := h.lines_eq
  mode_eq := h.mode_eq
  counter_le := h.counter_le
  ids_sub := h.ids_sub
  pairs_sub := h.pairs_sub
  new_ids := fun i hi => (h.new_ids i hi).imp_right
    (fun hh => ⟨Nat.lt_of_le_of_lt hmn hh.1, hh.2⟩)
  new_pairs := fun p hp => (h.new_pairs p hp).imp_right (fun hh => Nat.lt_of_le_of_lt hmn hh)
  wf_pres := h.wf_pres

/-- Composition of extensions: an anchor for the second stage that is
reachable from the first stage's anchor yields an extension with the first
anchor. -/
theorem BExt.trans {n root root2 : Nat} {s s1 s2 : Builder}
    (h1 : BExt n root s s1) (h2 : BExt n root2 s1 s2)
    (hR : s1.graph.Reach root root2) : BExt n root s s2 where
  lines_eq := h2.lines_eq.trans h1.lines_eq
  mode_eq := h2.mode_eq.trans h1.mode_eq
  counter_le := Nat.le_trans h1.counter_le h2.counter_le
  ids_sub := fun i hi => h2.ids_sub i (h1.ids_sub i hi)
  pairs_sub := fun p hp => h2.pairs_sub p (h1.pairs_sub p hp)
  new_ids := by
    intro i hi
    rcases h2.new_ids i hi with hin | ⟨hlt, hreach, hasin⟩
    · rcases h1.new_ids i hin with hin2 | ⟨hlt, hreach, hasin⟩
      · exact Or.inl hin2
      · exact Or.inr ⟨hlt, reach_mono h2.pairs_sub hreach, hasIn_mono h2.pairs_sub hasin⟩
    · exact Or.inr ⟨hlt, Relation.ReflTransGen.trans (reach_mono h2.pairs_sub hR) hreach, hasin⟩
  new_pairs := by
    intro p hp
    rcases h2.new_pairs p hp with hin | hlt
    · rcases h1.new_pairs p hin with hin2 | hlt
      · exact Or.inl hin2
      · exact Or.inr hlt
    · exact Or.inr hlt
  wf_pres := by
    intro hwf
    rcases h1.wf_pres hwf with ⟨hwf1, hnodes1⟩
    rcases h2.wf_pres hwf1 with ⟨hwf2, hnodes2⟩
    exact ⟨hwf2, fun x hx => hnodes2 x (hnodes1 x hx)⟩

/-- A cursor change on the target side preserves the extension. -/
theorem bext_set_cursor {n root : Nat} {s s2 : Builder} (h : BExt n root s s2) (k : Nat) :
    BExt n root s { s2 with cursor := k } :=
  h.trans (bext_cursor n root s2 k) Relation.ReflTransGen.refl

/-- Connecting into a node above the bound is an extension (no new nodes). -/
theorem bext_connect_new (n root : Nat) (s : Builder) (u v : Nat) (l : Option Line)
    (hv : n < v) : BExt n root s (s.connect u v l) where
  lines_eq := rfl
  mode_eq := rfl
  counter_le := Nat.le_refl _
  ids_sub := fun i hi => by
    show i ∈ (s.graph.add_edge u v l).ids
    rw [add_edge_ids]; exact hi
  pairs_sub := fun p hp => pairs_sub_add_edge s.graph u v l p hp
  new_ids := fun i hi => Or.inl (by
    have h2 : i ∈ (s.graph.add_edge u v l).ids := hi
    rw [add_edge_ids] at h2
    exact h2)
  new_pairs := fun p hp => by
    rcases pairs_add_edge_elim s.graph u v l p hp with h | h
    · exact Or.inl h
    · rw [h]; exact Or.inr hv
  wf_pres := fun hwf => by
    refine ⟨fun i hi => hwf i ?_, fun x hx => ?_⟩
    · have h2 : i ∈ (s.graph.add_edge u v l).ids := hi
      rw [add_edge_ids] at h2
      exact h2
    · show x ∈ (s.graph.add_edge u v l).nodes
      rw [add_edge_nodes]; exact hx

/-- Creating a fresh node and connecting it from a reachable source is an
extension; the fresh node is the incremented counter, reachable, cursor
untouched. -/
theorem bext_attach (n root : Nat) (s : Builder) (label sh fc : Line) (src : Nat)
    (l : Option Line) (hn : n ≤ s.node_counter) (hsrc : s.graph.Reach root src) :
    BExt n root s ((s.new_node label sh fc).2.connect src (s.new_node label sh fc).1 l) ∧
    (s.new_node label sh fc).1 = s.node_counter + 1 ∧
    ((s.new_node label sh fc).2.connect src (s.new_node label sh fc).1 l).node_counter =
      s.node_counter + 1 ∧
    ((s.new_node label sh fc).2.connect src (s.new_node label sh fc).1 l).graph.Reach root
      (s.new_node label sh fc).1 ∧
    ((s.new_node label sh fc).2.connect src (s.new_node label sh fc).1 l).cursor = s.cursor := by
  have hgr : ((s.new_node label sh fc).2.connect src (s.new_node label sh fc).1 l).graph =
      (s.graph.add_node (s.node_counter + 1)
        ⟨clean_label label, sh, "filled".data, fc⟩).add_edge src (s.node_counter + 1) l := rfl
  have hpairs_sub : ∀ p ∈ s.graph.pairs,
      p ∈ ((s.new_node label sh fc).2.connect src (s.new_node label sh fc).1 l).graph.pairs := by
    intro p hp
    rw [hgr]
    apply pairs_sub_add_edge
    rw [add_node_pairs]
    exact hp
  have hstep : (src, s.node_counter + 1) ∈
      ((s.new_node label sh fc).2.connect src (s.new_node label sh fc).1 l).graph.pairs := by
    rw [hgr]
    exact mem_pairs_add_edge _ src _ l
  have hreach : ((s.new_node label sh fc).2.connect src
      (s.new_node label sh fc).1 l).graph.Reach root (s.node_counter + 1) :=
    Relation.ReflTransGen.trans (reach_mono hpairs_sub hsrc) (Relation.ReflTransGen.single hstep)
  have hids_elim : ∀ i ∈ ((s.new_node label sh fc).2.connect src
      (s.new_node label sh fc).1 l).graph.ids, i ∈ s.graph.ids ∨ i = s.node_counter + 1 := by
    intro i hi
    rw [hgr, add_edge_ids] at hi
    exact add_node_ids_elim _ _ _ _ hi
  refine ⟨⟨rfl, rfl, Nat.le_succ _, ?_, hpairs_sub, ?_, ?_, ?_⟩, rfl, rfl, hreach, rfl⟩
  · intro i hi
    rw [hgr, add_edge_ids]
    exact add_node_ids_sub _ _ _ _ hi
  · intro i hi
    rcases hids_elim i hi with h | h
    · exact Or.inl h
    · subst h
      exact Or.inr ⟨Nat.lt_of_le_of_lt hn (Nat.lt_succ_self _), hreach, ⟨src, hstep⟩⟩
  · intro p hp
    rw [hgr] at hp
    rcases pairs_add_edge_elim _ src _ l p hp with h | h
    · rw [add_node_pairs] at h
      exact Or.inl h
    · rw [h]
      exact Or.inr (Nat.lt_of_le_of_lt hn (Nat.lt_succ_self _))
  · intro hwf
    constructor
    · intro i hi
      rcases hids_elim i hi with h | h
      · exact Nat.le_trans (hwf i h) (Nat.le_succ _)
      · subst h; exact Nat.le_refl _
    · intro x hx
      rw [hgr, add_edge_nodes]
      refine mem_add_node_of_ne _ _ _ _ hx ?_
      have hx1 : x.1 ∈ s.graph.ids := List.mem_map.mpr ⟨x, hx, rfl⟩
      have := hwf _ hx1
      omega

/-- Flushing the buffer is an extension anchored at the current
predecessor; the returned node is reachable from it and the cursor is
untouched. -/
theorem bext_flush (n : Nat) (s : Builder) (cur : Nat) (buf : List Line)
    (hn : n ≤ s.node_counter) :
    BExt n cur s (s.flush_buffer cur buf).2 ∧
    (s.flush_buffer cur buf).2.graph.Reach cur (s.flush_buffer cur buf).1 ∧
    s.node_counter ≤ (s.flush_buffer cur buf).2.node_counter ∧
    (s.flush_buffer cur buf).2.cursor = s.cursor := by
  cases buf with
  | nil => exact ⟨bext_refl n cur s, Relation.ReflTransGen.refl, Nat.le_refl _, rfl⟩
  | cons x xs =>
    have h := bext_attach n cur s (List.intercalate ['\n'] (x :: xs)) "box".data "white".data
      cur none hn Relation.ReflTransGen.refl
    refine ⟨h.1, h.2.2.2.1, ?_, h.2.2.2.2⟩
    have h2 : (s.flush_buffer cur (x :: xs)).2.node_counter = s.node_counter + 1 := h.2.2.1
    omega

/-- The merge fold changes neither the counter, the lines, the cursor nor
the mode. -/
theorem fold_connect_misc (eps : List Nat) (b : Builder) (m : Nat) :
    (eps.foldl (fun acc q => acc.connect q m none) b).node_counter = b.node_counter ∧
    (eps.foldl (fun acc q => acc.connect q m none) b).lines = b.lines ∧
    (eps.foldl (fun acc q => acc.connect q m none) b).cursor = b.cursor ∧
    (eps.foldl (fun acc q => acc.connect q m none) b).mode = b.mode := by
  induction eps generalizing b with
  | nil => exact ⟨rfl, rfl, rfl, rfl⟩
  | cons q qs ih =>
    rw [List.foldl_cons]
    exact ih (b.connect q m none)

theorem fold_connect_ids (eps : List Nat) (b : Builder) (m : Nat) :
    (eps.foldl (fun acc q => acc.connect q m none) b).graph.ids = b.graph.ids := by
  unfold Graph.ids
  rw [fold_connect_nodes]

theorem fold_connect_pairs_sub (eps : List Nat) (b : Builder) (m : Nat)
    (p : Nat × Nat) (hp : p ∈ b.graph.pairs) :
    p ∈ (eps.foldl (fun acc q => acc.connect q m none) b).graph.pairs := by
  induction eps generalizing b with
  | nil => exact hp
  | cons q qs ih =>
    rw [List.foldl_cons]
    exact ih _ (pairs_sub_add_edge _ q m none p hp)

theorem fold_connect_pairs_elim (eps : List Nat) (b : Builder) (m : Nat)
    (p : Nat × Nat) (hp : p ∈ (eps.foldl (fun acc q => acc.connect q m none) b).graph.pairs) :
    p ∈ b.graph.pairs ∨ p.2 = m := by
  induction eps generalizing b with
  | nil => exact Or.inl hp
  | cons q qs ih =>
    rw [List.foldl_cons] at hp
    rcases ih _ hp with h | h
    · rcases pairs_add_edge_elim _ q m none p h with h2 | h2
      · exact Or.inl h2
      · rw [h2]; exact Or.inr rfl
    · exact Or.inr h

/-- The merge step is an extension: one fresh node (the incremented
counter), in-edges from the recorded exits, and an optional `False` edge
from the last open decision, all targeting the fresh node; given one
recorded exit reachable from the anchor, the merge node is reachable. -/
theorem bext_merge (n root : Nat) (s : Builder) (eps : List Nat) (ld : Option Nat)
    (hn : n ≤ s.node_counter)
    (hex : ∃ p, p ∈ eps ∧ s.graph.Reach root p) :
    BExt n root s (s.merge_exits eps ld).2 ∧
    (s.merge_exits eps ld).1 = s.node_counter + 1 ∧
    s.node_counter ≤ (s.merge_exits eps ld).2.node_counter ∧
    (s.merge_exits eps ld).2.graph.Reach root (s.merge_exits eps ld).1 ∧
    (s.merge_exits eps ld).2.cursor = s.cursor := by
  have hmisc := fold_connect_misc eps (s.new_node "Merge".data "point".data "white".data).2
    (s.node_counter + 1)
  have hpairs_sub : ∀ p ∈ s.graph.pairs,
      p ∈ (eps.foldl (fun acc q => acc.connect q (s.node_counter + 1) none)
        (s.new_node "Merge".data "point".data "white".data).2).graph.pairs := by
    intro p hp
    apply fold_connect_pairs_sub
    show p ∈ (s.graph.add_node (s.node_counter + 1)
      ⟨clean_label "Merge".data, "point".data, "filled".data, "white".data⟩).pairs
    rw [add_node_pairs]
    exact hp
  obtain ⟨p0, hp0, hR0⟩ := hex
  have hpm : (p0, s.node_counter + 1) ∈
      (eps.foldl (fun acc q => acc.connect q (s.node_counter + 1) none)
        (s.new_node "Merge".data "point".data "white".data).2).graph.pairs :=
    List.mem_map.mpr ⟨(p0, s.node_counter + 1, none),
      fold_connect_mem eps _ (s.node_counter + 1) p0 hp0, rfl⟩
  have hreach : (eps.foldl (fun acc q => acc.connect q (s.node_counter + 1) none)
      (s.new_node "Merge".data "point".data "white".data).2).graph.Reach root
      (s.node_counter + 1) :=
    Relation.ReflTransGen.trans (reach_mono hpairs_sub hR0) (Relation.ReflTransGen.single hpm)
  have hids_elim : ∀ i ∈ (eps.foldl (fun acc q => acc.connect q (s.node_counter + 1) none)
      (s.new_node "Merge".data "point".data "white".data).2).graph.ids,
      i ∈ s.graph.ids ∨ i = s.node_counter + 1 := by
    intro i hi
    rw [fold_connect_ids] at hi
    have hi2 : i ∈ (s.graph.add_node (s.node_counter + 1)
      ⟨clean_label "Merge".data, "point".data, "filled".data, "white".data⟩).ids := hi
    exact add_node_ids_elim _ _ _ _ hi2
  have core : BExt n root s
      (eps.foldl (fun acc q => acc.connect q (s.node_counter + 1) none)
        (s.new_node "Merge".data "point".data "white".data).2) := by
    refine ⟨hmisc.2.1, hmisc.2.2.2, ?_, ?_, hpairs_sub, ?_, ?_, ?_⟩
    · have h2 : (eps.foldl (fun acc q => acc.connect q (s.node_counter + 1) none)
        (s.new_node "Merge".data "point".data "white".data).2).node_counter =
          s.node_counter + 1 := hmisc.1
      omega
    · intro i hi
      rw [fold_connect_ids]
      show i ∈ (s.graph.add_node (s.node_counter + 1)
        ⟨clean_label "Merge".data, "point".data, "filled".data, "white".data⟩).ids
      exact add_node_ids_sub _ _ _ _ hi
    · intro i hi
      rcases hids_elim i hi with h | h
      · exact Or.inl h
      · subst h
        exact Or.inr ⟨Nat.lt_of_le_of_lt hn (Nat.lt_succ_self _), hreach, ⟨p0, hpm⟩⟩
    · intro q hq
      rcases fold_connect_pairs_elim eps _ _ q hq with h | h
      · have h2 : q ∈ (s.graph.add_node (s.node_counter + 1)
          ⟨clean_label "Merge".data, "point".data, "filled".data, "white".data⟩).pairs := h
        rw [add_node_pairs] at h2
        exact Or.inl h2
      · rw [h]
        exact Or.inr (Nat.lt_of_le_of_lt hn (Nat.lt_succ_self _))
    · intro hwf
      constructor
      · intro i hi
        have h2 : (eps.foldl (fun acc q => acc.connect q (s.node_counter + 1) none)
          (s.new_node "Merge".data "point".data "white".data).2).node_counter =
            s.node_counter + 1 := hmisc.1
        rcases hids_elim i hi with h | h
        · have := hwf i h
          omega
        · omega
      · intro x hx
        rw [fold_connect_nodes]
        show x ∈ (s.graph.add_node (s.node_counter + 1)
          ⟨clean_label "Merge".data, "point".data, "filled".data, "white".data⟩).nodes
        refine mem_add_node_of_ne _ _ _ _ hx ?_
        have hx1 : x.1 ∈ s.graph.ids := List.mem_map.mpr ⟨x, hx, rfl⟩
        have := hwf _ hx1
        omega
  rcases ld with _ | d
  · refine ⟨core, rfl, ?_, hreach, hmisc.2.2.1⟩
    have h2 : (s.merge_exits eps none).2.node_counter = s.node_counter + 1 := hmisc.1
    omega
  · have hlt : n < s.node_counter + 1 := Nat.lt_of_le_of_lt hn (Nat.lt_succ_self _)
    have hc := bext_connect_new n root
      (eps.foldl (fun acc q => acc.connect q (s.node_counter + 1) none)
        (s.new_node "Merge".data "point".data "white".data).2) d (s.node_counter + 1)
      (some "False".data) hlt
    refine ⟨core.trans hc Relation.ReflTransGen.refl, rfl, ?_, ?_, hmisc.2.2.1⟩
    · have h2 : (s.merge_exits eps (some d)).2.node_counter = s.node_counter + 1 := hmisc.1
      omega
    · exact reach_mono (fun q hq => pairs_sub_add_edge _ _ _ _ q hq) hreach


/-- The block parser and the chain handler are extensions: every new node is
a fresh id above the entry counter, has an in-edge, and is reachable from
the entry predecessor (respectively the current decision); every new edge
targets a fresh id; the exit node is reachable from the entry; the chain
only appends recorded exits and every recorded exit is original or reachable
from the decision. -/
theorem pb_pc_bext : ∀ fuel : Nat,
    (∀ (b : Builder) (cur : Nat) (buf : List Line),
      BExt b.node_counter cur b (Builder.parse_block_loop fuel b cur buf).2 ∧
      (Builder.parse_block_loop fuel b cur buf).2.graph.Reach cur
        (Builder.parse_block_loop fuel b cur buf).1) ∧
    (∀ (b : Builder) (ld : Nat) (eps : List Nat),
      BExt b.node_counter ld b (Builder.parse_chain fuel b ld eps).2.2 ∧
      (∀ e ∈ eps, e ∈ (Builder.parse_chain fuel b ld eps).2.1) ∧
      (∀ e ∈ (Builder.parse_chain fuel b ld eps).2.1,
        e ∈ eps ∨ (Builder.parse_chain fuel b ld eps).2.2.graph.Reach ld e)) := by
  intro fuel
  induction fuel with
  | zero =>
    constructor
    · intro b cur buf
      exact ⟨(bext_flush _ b cur buf (Nat.le_refl _)).1,
        (bext_flush _ b cur buf (Nat.le_refl _)).2.1⟩
    · intro b ld eps
      exact ⟨bext_refl _ _ _, fun e he => he, fun e he => Or.inl he⟩
  | succ fuel ih =>
    constructor
    · intro b cur buf
      by_cases hcur : b.cursor < b.lines.length
      · by_cases h1 : (startswith b.lines[b.cursor] "elif".data
            || startswith b.lines[b.cursor] "else".data) = true
        · rw [Builder.parse_block_loop, dif_pos hcur, if_pos h1]
          exact ⟨(bext_flush _ b cur buf (Nat.le_refl _)).1,
            (bext_flush _ b cur buf (Nat.le_refl _)).2.1⟩
        · by_cases h2 : (b.mode == Mode.c_style && b.lines[b.cursor] == "\x7d".data) = true
          · rw [Builder.parse_block_loop, dif_pos hcur, if_neg h1, if_pos h2]
            exact ⟨bext_set_cursor (bext_flush _ b cur buf (Nat.le_refl _)).1 _,
              (bext_flush _ b cur buf (Nat.le_refl _)).2.1⟩
          · by_cases h3 : (b.mode == Mode.c_style && b.lines[b.cursor] == "\x7b".data) = true
            · rw [Builder.parse_block_loop, dif_pos hcur, if_neg h1, if_neg h2, if_pos h3]
              have hrec := ih.1 { b with cursor := b.cursor + 1 } cur buf
              exact ⟨(bext_cursor _ cur b _).trans hrec.1 Relation.ReflTransGen.refl, hrec.2⟩
            · by_cases h4 : (startswith b.lines[b.cursor] "for".data
                  || startswith b.lines[b.cursor] "while".data) = true
              · rw [Builder.parse_block_loop, dif_pos hcur, if_neg h1, if_neg h2, if_neg h3,
                  if_pos h4]
                simp only []
                set F := b.flush_buffer cur buf with hF
                set q := F.2.new_node b.lines[b.cursor] "diamond".data "#FFF9C4".data with hq
                set C := q.2.connect F.1 q.1 none with hC
                set b3 : Builder := { C with cursor := b.cursor + 1 } with hb3d
                set r := Builder.parse_block_loop fuel b3 q.1 [] with hr
                set b5 := r.2.connect r.1 q.1 (some "Loop".data) with hb5
                set s6 := b5.new_node "Exit Loop".data "point".data "white".data with hs6
                set b7 := s6.2.connect q.1 s6.1 (some "False".data) with hb7
                have hflush : BExt b.node_counter cur b F.2 ∧ F.2.graph.Reach cur F.1 ∧
                    b.node_counter ≤ F.2.node_counter ∧ F.2.cursor = b.cursor :=
                  bext_flush b.node_counter b cur buf (Nat.le_refl _)
                have hatt : BExt b.node_counter cur F.2 C ∧ q.1 = F.2.node_counter + 1 ∧
                    C.node_counter = F.2.node_counter + 1 ∧ C.graph.Reach cur q.1 ∧
                    C.cursor = F.2.cursor :=
                  bext_attach b.node_counter cur F.2 b.lines[b.cursor] "diamond".data
                    "#FFF9C4".data F.1 none hflush.2.2.1 hflush.2.1
                have hb3ext : BExt b.node_counter cur b b3 :=
                  hflush.1.trans (bext_set_cursor hatt.1 (b.cursor + 1))
                    Relation.ReflTransGen.refl
                have hn3 : b.node_counter ≤ b3.node_counter := by
                  have e1 : b3.node_counter = F.2.node_counter + 1 := hatt.2.2.1
                  have e2 := hflush.2.2.1
                  omega
                have hchild := ih.1 b3 q.1 []
                have hreach_b3 : b3.graph.Reach cur q.1 := hatt.2.2.2.1
                have hext_r : BExt b.node_counter cur b r.2 :=
                  hb3ext.trans (hchild.1.weaken hn3) hreach_b3
                have hq1big : b.node_counter < q.1 := by
                  have e1 : q.1 = F.2.node_counter + 1 := hatt.2.1
                  have e2 := hflush.2.2.1
                  omega
                have hback : BExt b.node_counter cur r.2 b5 :=
                  bext_connect_new b.node_counter cur r.2 r.1 q.1 (some "Loop".data) hq1big
                have hext5 : BExt b.node_counter cur b b5 :=
                  hext_r.trans hback Relation.ReflTransGen.refl
                have hreach5 : b5.graph.Reach cur q.1 :=
                  reach_mono (fun p hp => pairs_sub_add_edge _ _ _ _ p
                    (hchild.1.pairs_sub p hp)) hreach_b3
                have hatt2 : BExt b.node_counter cur b5 b7 ∧ s6.1 = b5.node_counter + 1 ∧
                    b7.node_counter = b5.node_counter + 1 ∧ b7.graph.Reach cur s6.1 ∧
                    b7.cursor = b5.cursor :=
                  bext_attach b.node_counter cur b5 "Exit Loop".data "point".data "white".data
                    q.1 (some "False".data) hext5.counter_le hreach5
                have hext7 : BExt b.node_counter cur b b7 :=
                  hext5.trans hatt2.1 Relation.ReflTransGen.refl
                have hcont := ih.1 b7 s6.1 []
                exact ⟨hext7.trans (hcont.1.weaken hext7.counter_le) hatt2.2.2.2.1,
                  Relation.ReflTransGen.trans
                    (reach_mono (hcont.1.weaken hext7.counter_le).pairs_sub hatt2.2.2.2.1) hcont.2⟩
              · by_cases h5 : startswith b.lines[b.cursor] "if".data = true
                · rw [Builder.parse_block_loop, dif_pos hcur, if_neg h1, if_neg h2, if_neg h3,
                    if_neg h4, if_pos h5]
                  simp only []
                  set F := b.flush_buffer cur buf with hF
                  set q := F.2.new_node b.lines[b.cursor] "diamond".data "#FFE0B2".data with hq
                  set C := q.2.connect F.1 q.1 none with hC
                  set b3 : Builder := { C with cursor := b.cursor + 1 } with hb3d
                  set r := Builder.parse_block_loop fuel b3 q.1 [] with hr
                  set CH := Builder.parse_chain fuel r.2 q.1 [r.1] with hCH
                  set M := CH.2.2.merge_exits CH.2.1 CH.1 with hM
                  have hflush : BExt b.node_counter cur b F.2 ∧ F.2.graph.Reach cur F.1 ∧
                      b.node_counter ≤ F.2.node_counter ∧ F.2.cursor = b.cursor :=
                    bext_flush b.node_counter b cur buf (Nat.le_refl _)
                  have hatt : BExt b.node_counter cur F.2 C ∧ q.1 = F.2.node_counter + 1 ∧
                      C.node_counter = F.2.node_counter + 1 ∧ C.graph.Reach cur q.1 ∧
                      C.cursor = F.2.cursor :=
                    bext_attach b.node_counter cur F.2 b.lines[b.cursor] "diamond".data
                      "#FFE0B2".data F.1 none hflush.2.2.1 hflush.2.1
                  have hb3ext : BExt b.node_counter cur b b3 :=
                    hflush.1.trans (bext_set_cursor hatt.1 (b.cursor + 1))
                      Relation.ReflTransGen.refl
                  have hn3 : b.node_counter ≤ b3.node_counter := by
                    have e1 : b3.node_counter = F.2.node_counter + 1 := hatt.2.2.1
                    have e2 := hflush.2.2.1
                    omega
                  have hchild := ih.1 b3 q.1 []
                  have hreach_b3 : b3.graph.Reach cur q.1 := hatt.2.2.2.1
                  have hext_r : BExt b.node_counter cur b r.2 :=
                    hb3ext.trans (hchild.1.weaken hn3) hreach_b3
                  have hchain := ih.2 r.2 q.1 [r.1]
                  have hreach_r_cond : r.2.graph.Reach cur q.1 :=
                    reach_mono hchild.1.pairs_sub hreach_b3
                  have hext_C : BExt b.node_counter cur b CH.2.2 :=
                    hext_r.trans (hchain.1.weaken hext_r.counter_le) hreach_r_cond
                  have hreach_exit : CH.2.2.graph.Reach cur r.1 :=
                    reach_mono hchain.1.pairs_sub
                      (Relation.ReflTransGen.trans hreach_r_cond hchild.2)
                  have hmerge := bext_merge b.node_counter cur CH.2.2 CH.2.1 CH.1
                    hext_C.counter_le
                    ⟨r.1, hchain.2.1 r.1 (List.mem_singleton.mpr rfl), hreach_exit⟩
                  have hext_M : BExt b.node_counter cur b M.2 :=
                    hext_C.trans hmerge.1 Relation.ReflTransGen.refl
                  have hcont := ih.1 M.2 M.1 []
                  exact ⟨hext_M.trans (hcont.1.weaken hext_M.counter_le) hmerge.2.2.2.1,
                    Relation.ReflTransGen.trans
                      (reach_mono (hcont.1.weaken hext_M.counter_le).pairs_sub hmerge.2.2.2.1)
                      hcont.2⟩
                · by_cases h6 : startswith b.lines[b.cursor] "return".data = true
                  · rw [Builder.parse_block_loop, dif_pos hcur, if_neg h1, if_neg h2, if_neg h3,
                      if_neg h4, if_neg h5, if_pos h6]
                    have hflush := bext_flush b.node_counter b cur buf (Nat.le_refl _)
                    have hatt := bext_attach b.node_counter cur (b.flush_buffer cur buf).2
                      b.lines[b.cursor] "box".data "#FFCDD2".data (b.flush_buffer cur buf).1
                      none hflush.2.2.1 hflush.2.1
                    exact ⟨bext_set_cursor
                      (hflush.1.trans hatt.1 Relation.ReflTransGen.refl) _, hatt.2.2.2.1⟩
                  · rw [Builder.parse_block_loop, dif_pos hcur, if_neg h1, if_neg h2, if_neg h3,
                      if_neg h4, if_neg h5, if_neg h6]
                    have hrec := ih.1 { b with cursor := b.cursor + 1 } cur
                      (buf ++ [b.lines[b.cursor]])
                    exact ⟨(bext_cursor _ cur b _).trans hrec.1 Relation.ReflTransGen.refl,
                      hrec.2⟩
      · rw [Builder.parse_block_loop, dif_neg hcur]
        exact ⟨(bext_flush _ b cur buf (Nat.le_refl _)).1,
          (bext_flush _ b cur buf (Nat.le_refl _)).2.1⟩
    · intro b ld eps
      by_cases hcur : b.cursor < b.lines.length
      · by_cases hg1 : (startswith b.lines[b.cursor] "elif".data
            || startswith b.lines[b.cursor] "else if".data) = true
        · rw [Builder.parse_chain, dif_pos hcur, if_pos hg1]
          simp only []
          set B1 : Builder := { b with cursor := b.cursor + 1 } with hB1
          set q := B1.new_node b.lines[b.cursor] "diamond".data "#FFE0B2".data with hq
          set C := q.2.connect ld q.1 (some "False".data) with hC
          set r := Builder.parse_block_loop fuel C q.1 [] with hr
          have hatt : BExt b.node_counter ld B1 C ∧ q.1 = B1.node_counter + 1 ∧
              C.node_counter = B1.node_counter + 1 ∧ C.graph.Reach ld q.1 ∧
              C.cursor = B1.cursor :=
            bext_attach b.node_counter ld B1 b.lines[b.cursor] "diamond".data "#FFE0B2".data
              ld (some "False".data) (Nat.le_refl _) Relation.ReflTransGen.refl
          have hextC : BExt b.node_counter ld b C :=
            (bext_cursor b.node_counter ld b (b.cursor + 1)).trans hatt.1
              Relation.ReflTransGen.refl
          have hnC : b.node_counter ≤ C.node_counter := by
            have e1 : C.node_counter = B1.node_counter + 1 := hatt.2.2.1
            have e2 : B1.node_counter = b.node_counter := rfl
            omega
          have hchild := ih.1 C q.1 []
          have hext_r : BExt b.node_counter ld b r.2 :=
            hextC.trans (hchild.1.weaken hnC) hatt.2.2.2.1
          have hreach_rq : r.2.graph.Reach ld q.1 := reach_mono hchild.1.pairs_sub hatt.2.2.2.1
          have hrec := ih.2 r.2 q.1 (eps ++ [r.1])
          refine ⟨hext_r.trans (hrec.1.weaken hext_r.counter_le) hreach_rq, ?_, ?_⟩
          · intro e he
            exact hrec.2.1 e (List.mem_append_left _ he)
          · intro e he
            rcases hrec.2.2 e he with hin | hR
            · rcases List.mem_append.mp hin with hin2 | hin2
              · exact Or.inl hin2
              · right
                rw [List.mem_singleton.mp hin2]
                exact reach_mono hrec.1.pairs_sub
                  (Relation.ReflTransGen.trans hreach_rq hchild.2)
            · right
              exact Relation.ReflTransGen.trans (reach_mono hrec.1.pairs_sub hreach_rq) hR
        · by_cases hg2 : startswith b.lines[b.cursor] "else".data = true
          · rw [Builder.parse_chain, dif_pos hcur, if_neg hg1, if_pos hg2]
            simp only []
            set B1 : Builder := { b with cursor := b.cursor + 1 } with hB1
            set q := B1.new_node "Else".data "point".data "white".data with hq
            set C := q.2.connect ld q.1 (some "False".data) with hC
            set r := Builder.parse_block_loop fuel C q.1 [] with hr
            have hatt : BExt b.node_counter ld B1 C ∧ q.1 = B1.node_counter + 1 ∧
                C.node_counter = B1.node_counter + 1 ∧ C.graph.Reach ld q.1 ∧
                C.cursor = B1.cursor :=
              bext_attach b.node_counter ld B1 "Else".data "point".data "white".data
                ld (some "False".data) (Nat.le_refl _) Relation.ReflTransGen.refl
            have hextC : BExt b.node_counter ld b C :=
              (bext_cursor b.node_counter ld b (b.cursor + 1)).trans hatt.1
                Relation.ReflTransGen.refl
            have hnC : b.node_counter ≤ C.node_counter := by
              have e1 : C.node_counter = B1.node_counter + 1 := hatt.2.2.1
              have e2 : B1.node_counter = b.node_counter := rfl
              omega
            have hchild := ih.1 C q.1 []
            have hext_r : BExt b.node_counter ld b r.2 :=
              hextC.trans (hchild.1.weaken hnC) hatt.2.2.2.1
            have hreach_rq : r.2.graph.Reach ld q.1 := reach_mono hchild.1.pairs_sub hatt.2.2.2.1
            refine ⟨hext_r, fun e he => List.mem_append_left _ he, ?_⟩
            intro e he
            rcases List.mem_append.mp he with hin | hin
            · exact Or.inl hin
            · right
              rw [List.mem_singleton.mp hin]
              exact Relation.ReflTransGen.trans hreach_rq hchild.2
          · rw [Builder.parse_chain, dif_pos hcur, if_neg hg1, if_neg hg2]
            exact ⟨bext_refl _ _ _, fun e he => he, fun e he => Or.inl he⟩
      · rw [Builder.parse_chain, dif_neg hcur]
        exact ⟨bext_refl _ _ _, fun e he => he, fun e he => Or.inl he⟩

/-- No incoming pair means in-degree zero. -/
theorem in_degree_zero (g : Graph) (v : Nat) (h : ∀ p ∈ g.pairs, p.2 ≠ v) :
    g.in_degree v = 0 := by
  unfold Graph.in_degree
  rw [List.length_eq_zero, List.filter_eq_nil_iff]
  intro e he
  have hp : (e.1, e.2.1) ∈ g.pairs := List.mem_map.mpr ⟨e, he, rfl⟩
  have := h _ hp
  simpa using this

/-- An incoming pair means positive in-degree. -/
theorem in_degree_pos (g : Graph) (v : Nat) (h : g.hasIn v) : 0 < g.in_degree v := by
  rcases h with ⟨u, hu⟩
  rcases List.mem_map.mp hu with ⟨e, he, hep⟩
  injection hep with h1 h2
  exact List.length_pos_of_mem (List.mem_filter.mpr ⟨he, by simp [h2]⟩)

/-- C7: for every input, the finished graph contains the START node (id 1),
START is the only node with in-degree 0, and every node in the graph is
reachable from START by directed edges. -/
theorem claim_C7_single_entry (text : String) :
    (1, ⟨"START".data, "oval".data, "filled".data, "#C8E6C9".data⟩) ∈
      (Builder.init.parse text).1.nodes ∧
    (Builder.init.parse text).1.in_degree 1 = 0 ∧
    (∀ i ∈ (Builder.init.parse text).1.ids, i ≠ 1 →
      0 < (Builder.init.parse text).1.in_degree i) ∧
    (∀ i ∈ (Builder.init.parse text).1.ids, (Builder.init.parse text).1.Reach 1 i) := by
  rcases hn : normalizeInput text with ⟨m, L⟩
  have h1 : Builder.init.parse text =
      (let r := Builder.parse_block_loop (L.length + 1)
        ⟨⟨[(1, ⟨"START".data, "oval".data, "filled".data, "#C8E6C9".data⟩)], []⟩, 1, L, 0, m⟩
        1 []
       let qe := r.2.new_node "END".data "oval".data "#FFCDD2".data
       let b5 := qe.2.connect r.1 qe.1 none
       (b5.graph, b5)) := by
    simp only [Builder.parse]
    rw [hn]
    rfl
  have hbx := (pb_pc_bext (L.length + 1)).1
    ⟨⟨[(1, ⟨"START".data, "oval".data, "filled".data, "#C8E6C9".data⟩)], []⟩, 1, L, 0, m⟩ 1 []
  have hend := bext_attach 1 1
    (Builder.parse_block_loop (L.length + 1)
      ⟨⟨[(1, ⟨"START".data, "oval".data, "filled".data, "#C8E6C9".data⟩)], []⟩, 1, L, 0, m⟩
      1 []).2
    "END".data "oval".data "#FFCDD2".data
    (Builder.parse_block_loop (L.length + 1)
      ⟨⟨[(1, ⟨"START".data, "oval".data, "filled".data, "#C8E6C9".data⟩)], []⟩, 1, L, 0, m⟩
      1 []).1
    none hbx.1.counter_le hbx.2
  have hfinal := hbx.1.trans hend.1 Relation.ReflTransGen.refl
  have hwfB2 : ∀ i ∈ (⟨⟨[(1, ⟨"START".data, "oval".data, "filled".data, "#C8E6C9".data⟩)],
      []⟩, 1, L, 0, m⟩ : Builder).graph.ids, i ≤ 1 := by
    intro i hi
    simp only [Graph.ids, List.map, List.mem_singleton] at hi
    omega
  have hnodes := (hfinal.wf_pres hwfB2).2
  rw [h1]
  refine ⟨?_, ?_, ?_, ?_⟩
  · exact hnodes (1, ⟨"START".data, "oval".data, "filled".data, "#C8E6C9".data⟩)
      (by simp)
  · apply in_degree_zero
    intro p hp
    rcases hfinal.new_pairs p hp with hin | hlt
    · simp [Graph.pairs] at hin
    · have hlt2 : 1 < p.2 := hlt
      omega
  · intro i hi hne
    rcases hfinal.new_ids i hi with hin | ⟨_, _, hasin⟩
    · simp only [Graph.ids, List.map, List.mem_singleton] at hin
      exact absurd hin hne
    · exact in_degree_pos _ _ hasin
  · intro i hi
    rcases hfinal.new_ids i hi with hin | ⟨_, hreach, _⟩
    · simp only [Graph.ids, List.map, List.mem_singleton] at hin
      rw [hin]
      exact Relation.ReflTransGen.refl
    · exact hreach

/-- C7 witness: on `if x: / a` the START node 1 has in-degree 0 and the
statement node 3 has an incoming edge and is reachable from START. -/
theorem claim_C7_witness :
    (Builder.init.parse "if x:\n    a").1.in_degree 1 = 0 ∧
    0 < (Builder.init.parse "if x:\n    a").1.in_degree 3 ∧
    (Builder.init.parse "if x:\n    a").1.Reach 1 3 :=
  ⟨(claim_C7_single_entry "if x:\n    a").2.1,
   (claim_C7_single_entry "if x:\n    a").2.2.1 3 (by decide) (by decide),
   (claim_C7_single_entry "if x:\n    a").2.2.2 3 (by decide)⟩
